import Mathlib

set_option maxRecDepth 8000

/-!
Verification of the VDO block-map tree engine against its specification.

The definitions below are a shallow embedding of the C sources:
  * `src/utils/vdo/base/blockMapTree.c`        (tree-zone generation flush protocol)
  * `src/utils/vdo/base/referenceCountRebuild.c` (reference-count rebuild)
  * `src/utils/vdo/superBlockCodec.c`          (super-block codec)
  * `src/utils/uds/masterIndexOps.c`           (master-index restore driver)

Machine integers are modelled as `Nat` with explicit `% 2 ^ w` where the C
code relies on wrap-around (`uint8_t` generations wrap at 256, `uint32_t`
dirty-page counts wrap at 2 ^ 32).  Collaborators whose sources are not part
of the repository snapshot (vioPool.c, waitQueue.c, blockMapPage.h, header.h,
buffer.c, masterIndex005/006.c) are modelled from the specification's
interface contracts; each such definition says so in its doc comment.
-/

namespace Vdo

/-- Status codes.  The numeric values of the codes are not given by the
sources in this snapshot (statusCodes.h and errors.h are external); only
their distinctness matters for the claims, so representative distinct
values are used. -/
def VDO_SUCCESS : Int := 0

/-- Success code of the UDS layer (same value as `VDO_SUCCESS` in the real
code base). -/
def UDS_SUCCESS : Int := 0

/-- Error code produced by a failing `ASSERT` (per permassert.h, a failing
`ASSERT` returns `UDS_ASSERTION_FAILED`). -/
def UDS_ASSERTION_FAILED : Int := 1492

/-- Out-of-space error. -/
def VDO_NO_SPACE : Int := 2000

/-- Read-only-mode error. -/
def VDO_READ_ONLY : Int := 2001

/-- Unsupported-version error. -/
def VDO_UNSUPPORTED_VERSION : Int := 2002

/-- Checksum-mismatch error. -/
def VDO_CHECKSUM_MISMATCH : Int := 2003

/-- Corrupt-component error of the UDS layer. -/
def UDS_CORRUPT_COMPONENT : Int := 1030

/-- End-of-file indication of the UDS buffered reader. -/
def UDS_END_OF_FILE : Int := 1064

/-- Generic buffer-space error of the UDS buffer utilities. -/
def UDS_BUFFER_ERROR : Int := 1041

namespace TreeZone

/-- Identifier of a tree page (index into the forest). -/
abbrev PageId := Nat

/-- Identifier of a vio-pool entry. -/
abbrev EntryId := Nat

/-- The per-page state of `struct tree_page` that the flush protocol reads
and writes (blockMapTree.h / blockMapTreeInternals.h).  `waiting` models
`is_waiting(&page->waiter)`, i.e. whether the page's embedded waiter is
currently enqueued on some wait queue; `initialized` models the
`initialized` header field of the in-memory `block_map_page`. -/
structure TreePage where
  generation : Nat
  writingGeneration : Nat
  writingRecoveryLock : Nat
  recoveryLock : Nat
  writing : Bool
  waiting : Bool
  initialized : Bool
  deriving DecidableEq

/-- Observable events of the tree zone.  `launchWrite` records a call of
`launchWriteMetadataVIO` / `launchWriteMetadataVIOWithFlush` (the Bool is
the flush-before flag), `returnedToPool` a call of `return_vio_to_pool`,
`stamped` a `set_generation` stamp together with the zone generation at
that moment, `notified` one `write_page_if_not_dirtied` notification with
its context generation, `enqueuedPage` a call of `enqueue_page`, and
`enteredReadOnly` a call of `enter_zone_read_only_mode`. -/
inductive Action where
  | releasedJournalLock (lock : Nat)
  | enteredReadOnly (result : Int)
  | stamped (page : PageId) (newGeneration : Nat) (zoneGeneration : Nat)
  | enqueuedPage (page : PageId)
  | notified (page : PageId) (contextGeneration : Nat)
  | launchWrite (page : PageId) (entry : EntryId) (flushBefore : Bool)
  | returnedToPool (entry : EntryId)
  | outOfFuel
  deriving DecidableEq

/-- The state of one `struct block_map_tree_zone` together with the pages
it owns, the vio pool, and a chronological trace of observable events.
The vio pool (vioPool.c is external) is modelled from the specification's
contract (section 4.1): a FIFO free list plus a FIFO waiter queue. -/
structure ZoneState where
  generation : Nat
  oldestGeneration : Nat
  dirtyPageCounts : Nat → Nat
  flusher : Option PageId
  flushWaiters : List PageId
  poolFree : List EntryId
  poolWaiters : List PageId
  pages : PageId → TreePage
  readOnly : Bool
  trace : List Action

/-- Update the record of a single page. -/
def setPage (s : ZoneState) (p : PageId) (f : TreePage → TreePage) : ZoneState :=
  { s with pages := fun q => if q = p then f (s.pages q) else s.pages q }

/-- Append an observable event to the trace. -/
def emit (s : ZoneState) (a : Action) : ZoneState :=
  { s with trace := s.trace ++ [a] }

/-- Shallow embedding of `attempt_increment` (blockMapTree.c:355-364).
`uint8_t generation = zone->generation + 1` wraps at 256. -/
def attemptIncrement (s : ZoneState) : Bool × ZoneState :=
  let generation := (s.generation + 1) % 256
  if s.oldestGeneration = generation then (false, s)
  else (true, { s with generation := generation })

/-- Cyclic-interval membership, `in_cyclic_range(lower, value, upper, modulus)`
from numUtils.h (external header).  Modelled from the spec's
`cyclic_in_range(low, x, high, modulus)` primitive: value lies in the cyclic
closed interval from lower to upper. -/
def inCyclicRange (lower value upper modulus : Nat) : Bool :=
  (value + modulus - lower) % modulus ≤ (upper + modulus - lower) % modulus

/-- The advance loop of `release_generation` (blockMapTree.c:274-277):
while the oldest bucket is empty and not equal to the current generation,
advance the (uint8) oldest generation.  The loop is run with explicit fuel;
256 steps always suffice for in-range generations. -/
def advanceOldest (counts : Nat → Nat) (generation : Nat) : Nat → Nat → Nat
  | 0, oldest => oldest
  | fuel + 1, oldest =>
    if counts oldest = 0 ∧ oldest ≠ generation then
      advanceOldest counts generation fuel ((oldest + 1) % 256)
    else oldest

/-- Shallow embedding of `enter_zone_read_only_mode` (blockMapTree.c:213-225):
notify the read-only collaborator, then dequeue every flush waiter so that
the tree zone can be closed.  Dequeuing clears each page's waiting flag. -/
def enterZoneReadOnlyMode (s : ZoneState) (result : Int) : ZoneState :=
  let s := emit s (.enteredReadOnly result)
  let s := { s with readOnly := true }
  let s := s.flushWaiters.foldl
    (fun t p => setPage t p (fun pg => { pg with waiting := false })) s
  { s with flushWaiters := [] }

/-- Shallow embedding of `release_generation` (blockMapTree.c:262-278):
assert that the released bucket is non-empty (else enter read-only mode),
decrement it, then advance the oldest generation past empty buckets. -/
def releaseGeneration (s : ZoneState) (generation : Nat) : ZoneState :=
  if s.dirtyPageCounts generation = 0 then
    enterZoneReadOnlyMode s UDS_ASSERTION_FAILED
  else
    let counts := fun i =>
      if i = generation then s.dirtyPageCounts generation - 1
      else s.dirtyPageCounts i
    { s with
      dirtyPageCounts := counts,
      oldestGeneration := advanceOldest counts s.generation 256 s.oldestGeneration }

/-- Shallow embedding of `set_generation` (blockMapTree.c:289-311).  The
dirty-page counts are `uint32_t`, so the increment wraps at 2 ^ 32 and a
wrap to zero is the overflow assertion failure. -/
def setGeneration (s : ZoneState) (p : PageId) (newGeneration : Nat)
    (decrementOld : Bool) : ZoneState :=
  let oldGeneration := (s.pages p).generation
  if decrementOld ∧ oldGeneration = newGeneration then s
  else
    let s := setPage s p (fun pg => { pg with generation := newGeneration })
    let newCount := (s.dirtyPageCounts newGeneration + 1) % 2 ^ 32
    let s := { s with
      dirtyPageCounts := fun i =>
        if i = newGeneration then newCount else s.dirtyPageCounts i }
    let s := emit s (.stamped p newGeneration s.generation)
    if newCount = 0 then enterZoneReadOnlyMode s UDS_ASSERTION_FAILED
    else if decrementOld then releaseGeneration s oldGeneration
    else s

/-- Shallow embedding of `is_not_older` (blockMapTree.c:238-253): assert both
generations are in the zone's cyclic range (on failure enter read-only mode
and answer `true`), else answer whether `a` lies cyclically in `[b, generation]`. -/
def isNotOlder (s : ZoneState) (a b : Nat) : Bool × ZoneState :=
  if inCyclicRange s.oldestGeneration a s.generation 256
      ∧ inCyclicRange s.oldestGeneration b s.generation 256 then
    (inCyclicRange b a s.generation 256, s)
  else
    (true, enterZoneReadOnlyMode s UDS_ASSERTION_FAILED)

/-- The success callback of a metadata-page write, `write_initialized_page`
(blockMapTree.c:494-514): mark the copy being written initialized and launch
the write, with a flush before it iff this page is the zone's flusher. -/
def writeInitializedPage (s : ZoneState) (p : PageId) (e : EntryId) : ZoneState :=
  emit s (.launchWrite p e (decide (s.flusher = some p)))

/-- The launch part of `write_page` (blockMapTree.c:536-557): copy the page
into the entry, record the writing generation and recovery lock, clear the
recovery lock, mark the in-memory page initialized
(`mark_block_map_page_initialized` returns whether the flag changed, per
blockMapPage.h, an external header), and either go straight to
`write_initialized_page` (flag unchanged, i.e. the page was already
initialized) or launch a plain metadata write whose success callback is
`write_initialized_page`. -/
def writePageLaunch (s : ZoneState) (p : PageId) (e : EntryId) : ZoneState :=
  let wasInitialized := (s.pages p).initialized
  let s := setPage s p (fun pg =>
    { pg with
      writing := true, writingGeneration := pg.generation,
      writingRecoveryLock := pg.recoveryLock, recoveryLock := 0,
      initialized := true })
  if wasInitialized then writeInitializedPage s p e
  else emit s (.launchWrite p e false)

/-- Append a page to the `flush_waiters` queue (the `enqueue_waiter` branch
of `enqueue_page`); the page's embedded waiter is now queued. -/
def enqueueFlushWaiter (s : ZoneState) (p : PageId) : ZoneState :=
  let s := setPage s p (fun pg => { pg with waiting := true })
  { s with flushWaiters := s.flushWaiters ++ [p] }

/-- Append a page to the vio pool's waiter queue (the exhausted-pool branch
of `acquire_vio_from_pool`; vioPool.c is external, modelled from the spec's
section 4.1 contract). -/
def enqueuePoolWaiter (s : ZoneState) (p : PageId) : ZoneState :=
  let s := setPage s p (fun pg => { pg with waiting := true })
  { s with poolWaiters := s.poolWaiters ++ [p] }

/-- A pending synchronous call within the flush pipeline's callback cycle
(`write_page`, `enqueue_page`, `acquire_vio`, `return_to_pool` call each
other through the vio pool's immediate dispatch). -/
inductive Call where
  | writePageCall (p : PageId) (e : EntryId)
  | enqueuePageCall (p : PageId)
  | acquireVioCall (p : PageId)
  | returnToPoolCall (e : EntryId)

/-- The interpreter for the four mutually recursive functions of the flush
pipeline, with explicit fuel for the callback cycles:

* `write_page` (blockMapTree.c:522-557): if the page is not the flusher and
  was re-dirtied after the last flush was issued, put it back on the flush
  queue and return the vio; otherwise launch the write;
* `enqueue_page` (blockMapTree.c:373-386): if there is no flusher and the
  generation can be incremented, install the page as the new flusher and
  acquire a vio for it; otherwise append it to `flush_waiters`;
* `acquire_vio` + `acquire_vio_from_pool` (blockMapTree.c:338-345; vioPool.c
  is external, modelled from the spec's section 4.1 contract): if a pool
  entry is free, invoke the page's `write_page_callback` with it
  immediately; else queue the page on the pool;
* `return_to_pool` + `return_vio_to_pool` (blockMapTree.c:415-420; same
  contract): return the entry, dispatching the head pool waiter with it when
  one is queued. -/
def runCall : Nat → Call → ZoneState → ZoneState
  | 0, _, s => emit s .outOfFuel
  | fuel + 1, .writePageCall p e, s =>
    if s.flusher ≠ some p then
      match isNotOlder s (s.pages p).generation s.generation with
      | (true, s1) =>
        runCall fuel (.returnToPoolCall e) (runCall fuel (.enqueuePageCall p) s1)
      | (false, s1) => writePageLaunch s1 p e
    else writePageLaunch s p e
  | fuel + 1, .enqueuePageCall p, s =>
    let s := emit s (.enqueuedPage p)
    if s.flusher = none then
      match attemptIncrement s with
      | (true, s1) => runCall fuel (.acquireVioCall p) { s1 with flusher := some p }
      | (false, s1) => enqueueFlushWaiter s1 p
    else enqueueFlushWaiter s p
  | fuel + 1, .acquireVioCall p, s =>
    match s.poolFree with
    | e :: rest => runCall fuel (.writePageCall p e) { s with poolFree := rest }
    | [] => enqueuePoolWaiter s p
  | fuel + 1, .returnToPoolCall e, s =>
    let s := emit s (.returnedToPool e)
    match s.poolWaiters with
    | [] => { s with poolFree := s.poolFree ++ [e] }
    | q :: rest =>
      runCall fuel (.writePageCall q e)
        { setPage s q (fun pg => { pg with waiting := false }) with
          poolWaiters := rest }

/-- `write_page`, as a runCall entry point. -/
def writePage (fuel : Nat) (s : ZoneState) (p : PageId) (e : EntryId) : ZoneState :=
  runCall fuel (.writePageCall p e) s

/-- `enqueue_page`, as a runCall entry point. -/
def enqueuePage (fuel : Nat) (s : ZoneState) (p : PageId) : ZoneState :=
  runCall fuel (.enqueuePageCall p) s

/-- `acquire_vio`, as a runCall entry point. -/
def acquireVio (fuel : Nat) (s : ZoneState) (p : PageId) : ZoneState :=
  runCall fuel (.acquireVioCall p) s

/-- `return_to_pool`, as a runCall entry point. -/
def returnToPool (fuel : Nat) (s : ZoneState) (e : EntryId) : ZoneState :=
  runCall fuel (.returnToPoolCall e) s

/-- Shallow embedding of `write_page_if_not_dirtied` (blockMapTree.c:397-407):
if the page is still covered by the flush that was just issued (its generation
equals the context generation), acquire a vio and write it; otherwise it must
wait for the next flush and is re-enqueued. -/
def writePageIfNotDirtied (fuel : Nat) (s : ZoneState) (p : PageId)
    (contextGeneration : Nat) : ZoneState :=
  if (s.pages p).generation = contextGeneration then acquireVio fuel s p
  else enqueuePage fuel s p

/-- The `notify_all_waiters(&zone->flush_waiters, write_page_if_not_dirtied,
&context)` call of `finish_page_write`.  The wait queue (waitQueue.c is
external) transfers the current waiters to a private queue first, then
dequeues and notifies each in FIFO order; callers pass the already-snapshotted
waiter list. -/
def notifyFlushWaiters (fuel : Nat) (s : ZoneState) (contextGeneration : Nat) :
    List PageId → ZoneState
  | [] => s
  | w :: rest =>
    let s := emit s (.notified w contextGeneration)
    let s := setPage s w (fun pg => { pg with waiting := false })
    let s := writePageIfNotDirtied fuel s w contextGeneration
    notifyFlushWaiters fuel s contextGeneration rest

/-- The tail of `finish_page_write` (blockMapTree.c:458-471) after the flusher
handling: re-dirtied pages are re-enqueued and the vio returned; otherwise a
waiting page may be promoted to flusher and written with this vio; otherwise
the vio goes back to the pool. -/
def finishContinuation (fuel : Nat) (s : ZoneState) (p : PageId) (e : EntryId)
    (dirty : Bool) : ZoneState :=
  if dirty then
    let s := enqueuePage fuel s p
    returnToPool fuel s e
  else if s.flusher = none ∧ s.flushWaiters ≠ [] then
    match attemptIncrement s with
    | (true, s1) =>
      match s1.flushWaiters with
      | w :: rest =>
        writePage fuel
          { setPage s1 w (fun pg => { pg with waiting := false }) with
            flusher := some w, flushWaiters := rest } w e
      | [] => returnToPool fuel s1 e
    | (false, s1) => returnToPool fuel s1 e
  else returnToPool fuel s e

/-- The flusher branch of `finish_page_write` (blockMapTree.c:446-457):
notify every flush waiter with the writing generation as context
(`notify_all_waiters(&zone->flush_waiters, write_page_if_not_dirtied,
&context)`); then, if the page was re-dirtied and `attempt_increment`
succeeds, immediately re-write it with the same vio pool entry; otherwise
clear the flusher and fall through to the continuation. -/
def flusherPhase (fuel : Nat) (s : ZoneState) (p : PageId) (e : EntryId)
    (dirty : Bool) : ZoneState :=
  let contextGeneration := (s.pages p).writingGeneration
  let waiters := s.flushWaiters
  let s := notifyFlushWaiters fuel { s with flushWaiters := [] }
    contextGeneration waiters
  if dirty then
    match attemptIncrement s with
    | (true, s1) => writePage fuel s1 p e
    | (false, s1) => finishContinuation fuel { s1 with flusher := none } p e dirty
  else finishContinuation fuel { s with flusher := none } p e dirty

/-- The prefix of `finish_page_write` (blockMapTree.c:436-444) up to the
flusher check: release the journal lock reference, release the writing
generation, and clear the page's `writing` flag. -/
def postFlusherCheckState (s : ZoneState) (p : PageId) : ZoneState :=
  let s := emit s (.releasedJournalLock (s.pages p).writingRecoveryLock)
  let s := releaseGeneration s (s.pages p).writingGeneration
  setPage s p (fun pg => { pg with writing := false })

/-- Shallow embedding of `finish_page_write` (blockMapTree.c:428-471):
release the journal lock, compute whether the page was re-dirtied while
writing, release the writing generation, clear `writing`; if this page is
the flusher, notify all flush waiters with the writing generation as context
and either immediately re-write the re-dirtied page with the same entry or
clear the flusher; finally run the continuation. -/
def finishPageWrite (fuel : Nat) (s : ZoneState) (p : PageId) (e : EntryId) :
    ZoneState :=
  let dirty := decide ((s.pages p).writingGeneration ≠ (s.pages p).generation)
  let t := postFlusherCheckState s p
  if t.flusher = some p then flusherPhase fuel t p e dirty
  else finishContinuation fuel t p e dirty

/-- The loop body of `write_dirty_pages_callback` (blockMapTree.c:572-587)
for one expired page: assert it is not already waiting (else enter read-only
mode and continue with the next page), stamp it with the generation the
callback snapshotted, and enqueue it unless it is already being written. -/
def expireOne (fuel : Nat) (generation : Nat) (t : ZoneState) (p : PageId) :
    ZoneState :=
  if (t.pages p).waiting then enterZoneReadOnlyMode t UDS_ASSERTION_FAILED
  else if ((setGeneration t p generation false).pages p).writing then
    setGeneration t p generation false
  else enqueuePage fuel (setGeneration t p generation false) p

/-- Shallow embedding of `write_dirty_pages_callback` (blockMapTree.c:567-588):
`uint8_t generation = zone->generation` snapshots the zone generation once,
before the loop; every page of the batch is then processed against that
snapshot. -/
def writeDirtyPagesCallback (fuel : Nat) (s : ZoneState) (expired : List PageId) :
    ZoneState :=
  expired.foldl (expireOne fuel s.generation) s

/-- Invariant maintained while `finish_page_write` notifies its flush
waiters: the completed page `P` stays the flusher, the generation window is
untouched, the entry `e` held by `finish_page_write` is not in the pool, and
`P` is on no queue. -/
def NotifyInv (P : PageId) (e : EntryId) (g o : Nat) (s : ZoneState) : Prop :=
  s.flusher = some P ∧ s.generation = g ∧ s.oldestGeneration = o ∧
    e ∉ s.poolFree ∧ P ∉ s.poolWaiters ∧ P ∉ s.flushWaiters

/-- Actions that the notification cascade may emit: no notification records
(only the notify loop itself emits those), no generation stamps, no return
of the entry held by `finish_page_write`, and no write launch for the
flusher. -/
def notifyBenign (P : PageId) (e : EntryId) : Action → Prop
  | .notified _ _ => False
  | .stamped _ _ _ => False
  | .returnedToPool e2 => e2 ≠ e
  | .launchWrite p2 _ _ => p2 ≠ P
  | _ => True

/-- Relation between the states before and after a step of the notification
cascade: the invariant still holds, every new trace action is benign, and
the existing trace is preserved. -/
def NotifyOut (P : PageId) (e : EntryId) (g o : Nat) (s t : ZoneState) : Prop :=
  NotifyInv P e g o t ∧ (∀ a ∈ t.trace, a ∈ s.trace ∨ notifyBenign P e a) ∧
    ∀ a ∈ s.trace, a ∈ t.trace

/-- Invariant maintained by the continuation of `finish_page_write` once the
flusher role of `P` has been given up: `P` never becomes the flusher again
within the call and is not queued on the pool. -/
def ContInv (P : PageId) (s : ZoneState) : Prop :=
  s.flusher ≠ some P ∧ P ∉ s.poolWaiters

/-- Actions the continuation may emit: anything except notifications,
generation stamps, and write launches for `P`. -/
def contBenign (P : PageId) : Action → Prop
  | .notified _ _ => False
  | .stamped _ _ _ => False
  | .launchWrite p2 _ _ => p2 ≠ P
  | _ => True

/-- Relation between the states before and after a step of the continuation
cascade. -/
def ContOut (P : PageId) (s t : ZoneState) : Prop :=
  ContInv P t ∧ (∀ a ∈ t.trace, a ∈ s.trace ∨ contBenign P a) ∧
    ∀ a ∈ s.trace, a ∈ t.trace

/-- Decidable rendering of claim C3's stamping property over a trace: every
`set_generation` stamp uses the zone generation current at the moment the
page is handled. -/
def stampsUseCurrentGeneration (tr : List Action) : Bool :=
  tr.all fun a =>
    match a with
    | .stamped _ newGeneration zoneGeneration => newGeneration = zoneGeneration
    | _ => true

/-- Decidable rendering of the negation of claim C4's temporal property over
a trace: after the first `enter_zone_read_only_mode` event some metadata
write is still launched. -/
def launchedWriteAfterReadOnly : List Action → Bool
  | [] => false
  | .enteredReadOnly _ :: rest =>
    rest.any fun a =>
      match a with
      | .launchWrite _ _ _ => true
      | _ => false
  | _ :: rest => launchedWriteAfterReadOnly rest

/-- An idle, never-written tree page. -/
def idlePage : TreePage :=
  { generation := 0, writingGeneration := 0, writingRecoveryLock := 0,
    recoveryLock := 0, writing := false, waiting := false, initialized := false }

/-- A fresh zone with two idle pages about to expire and one free pool
entry. -/
def freshZone : ZoneState :=
  { generation := 0, oldestGeneration := 0, dirtyPageCounts := fun _ => 0,
    flusher := none, flushWaiters := [], poolFree := [5], poolWaiters := [],
    pages := fun _ => idlePage, readOnly := false, trace := [] }

/-- A zone in which page 0 is (wrongly) already waiting, so that the expiry
callback's assertion fires on it, while page 1 is idle. -/
def waitingPageZone : ZoneState :=
  { freshZone with
    poolFree := [7],
    pages := fun p => if p = 0 then { idlePage with waiting := true } else idlePage }

/-- A zone in the middle of flushing page 0 (the flusher, written at
generation 0 and re-dirtied at generation 1) with page 1 queued on
`flush_waiters` and one free pool entry. -/
def rewriteZone : ZoneState :=
  { generation := 1, oldestGeneration := 0,
    dirtyPageCounts := fun i => if i = 0 then 1 else 0,
    flusher := some 0, flushWaiters := [1], poolFree := [2], poolWaiters := [],
    pages := fun p =>
      if p = 0 then
        { generation := 1, writingGeneration := 0, writingRecoveryLock := 7,
          recoveryLock := 0, writing := true, waiting := false,
          initialized := true }
      else { idlePage with waiting := true },
    readOnly := false, trace := [] }

end TreeZone

/-- A block-map entry unpacked into a data location (dataVIO.h / blockMapPage.h
are external; only the pbn and mapping-state fields are interpreted by the
embedded code). -/
structure DataLocation where
  pbn : Nat
  state : Nat
  deriving DecidableEq

/-- The zero physical block number (constants.h is external; `ZERO_BLOCK` is
the reserved all-zero block). -/
def ZERO_BLOCK : Nat := 0

/-- The unmapped mapping state (blockMapEntry.h is external; `UNMAPPED` is the
zero state and a location is mapped iff its state differs from it). -/
def MAPPING_STATE_UNMAPPED : Nat := 0

/-- Predicate `is_mapped_location` / `isMappedLocation`: the state is not
`MAPPING_STATE_UNMAPPED`. -/
def isMappedLocation (l : DataLocation) : Bool := l.state ≠ MAPPING_STATE_UNMAPPED

namespace AbortLookup

/-- A waiter on a tree-page lock; the only attribute read by
`abort_lookup_for_waiter` is whether the waiting data_vio is a read. -/
structure Waiter where
  isRead : Bool

/-- Shallow embedding of the result translation in `abort_lookup_for_waiter`
(blockMapTree.c:654-667): read requests turn `VDO_NO_SPACE` into
`VDO_SUCCESS`; non-read requests turn anything but `VDO_NO_SPACE` into
`VDO_READ_ONLY`. -/
def translateWaiterResult (isRead : Bool) (result : Int) : Int :=
  if isRead then
    if result = VDO_NO_SPACE then VDO_SUCCESS else result
  else
    if result ≠ VDO_NO_SPACE then VDO_READ_ONLY else result

/-- The lock state of the aborting lookup: whether the tree lock is held and
the waiters queued on it. -/
structure LockState where
  locked : Bool
  waiters : List Waiter

/-- Outcome of `abort_lookup` (blockMapTree.c:676-690): whether the zone was
put into read-only mode, the results delivered (via `finish_lookup`) to each
waiter on the lock, and the result the aborting data_vio itself finishes
with. -/
structure AbortOutcome where
  enteredReadOnly : Bool
  waiterResults : List Int
  ownResult : Int

/-- Shallow embedding of `abort_lookup` (blockMapTree.c:676-690): enter
read-only mode unless the error is `VDO_NO_SPACE`; if the lock is held,
release it and notify every waiter through `abort_lookup_for_waiter`; finish
the lookup with the untranslated result. -/
def abortLookup (lock : LockState) (result : Int) : AbortOutcome :=
  { enteredReadOnly := result ≠ VDO_NO_SPACE,
    waiterResults :=
      if lock.locked then
        lock.waiters.map (fun w => translateWaiterResult w.isRead result)
      else [],
    ownResult := result }

end AbortLookup

namespace PageFind

/-- A block-map page as read by `find_block_map_page_pbn`: the initialized
flag and the unpacked entries (blockMapPage.h is external; entries are
modelled at the data-location level). -/
structure MapPage where
  initialized : Bool
  entries : Nat → DataLocation

/-- The block map attributes that `find_block_map_page_pbn` consults.
`flatPageOrigin` stands for the constant `BLOCK_MAP_FLAT_PAGE_ORIGIN` and
`entriesPerPage` for `BLOCK_MAP_ENTRIES_PER_PAGE` (both from external
headers; the spec lists `entries_per_page` as configuration).  The forest is
the read-only collaborator `get_tree_page_by_index(forest, root, height,
pageIndex)`. -/
structure BlockMap where
  flatPageCount : Nat
  rootCount : Nat
  entriesPerPage : Nat
  flatPageOrigin : Nat
  forest : Nat → Nat → Nat → MapPage

/-- The location-validity predicates of the external page format
(`is_valid_location`, `is_compressed` from blockMapPage.h /
blockMapEntry.h); kept abstract, as the embedded code only branches on
them. -/
structure PageFormat where
  isValidLocation : DataLocation → Bool
  isCompressed : Nat → Bool

/-- Shallow embedding of `find_block_map_page_pbn` (blockMapTree.c:1273-1300):
flat pages are at `BLOCK_MAP_FLAT_PAGE_ORIGIN + page_number`; otherwise look
up the height-1 interior page and return its slot's PBN when the page is
initialized and the entry is a valid, non-compressed location, else
`ZERO_BLOCK`. -/
def findBlockMapPagePBN (fmt : PageFormat) (map : BlockMap) (pageNumber : Nat) :
    Nat :=
  if pageNumber < map.flatPageCount then map.flatPageOrigin + pageNumber
  else
    let rootIndex := pageNumber % map.rootCount
    let pageIndex := (pageNumber - map.flatPageCount) / map.rootCount
    let slot := pageIndex % map.entriesPerPage
    let pageIndex2 := pageIndex / map.entriesPerPage
    let page := map.forest rootIndex 1 pageIndex2
    if ¬ page.initialized then ZERO_BLOCK
    else
      let mapping := page.entries slot
      if ¬ fmt.isValidLocation mapping ∨ fmt.isCompressed mapping.state then
        ZERO_BLOCK
      else mapping.pbn

end PageFind

namespace Rebuild

/-- The entry written by `packPBN(ZERO_BLOCK, MAPPING_STATE_UNMAPPED)`,
unpacked. -/
def unmappedEntry : DataLocation := ⟨ZERO_BLOCK, MAPPING_STATE_UNMAPPED⟩

/-- The external collaborators of `rebuildReferenceCountsFromPage`:
`BLOCK_MAP_ENTRIES_PER_PAGE`, `isValidLocation`, `isPhysicalDataBlock`, and
the per-PBN result of `adjustReferenceCountForRebuild(slab->referenceCounts,
pbn, DATA_INCREMENT)`. -/
structure Env where
  entriesPerPage : Nat
  isValidLocation : DataLocation → Bool
  isPhysicalDataBlock : Nat → Bool
  adjustRefCount : Nat → Int

/-- The last slot of the block map (`rebuild->lastSlot`): the first slot
beyond logical space on the final leaf, and the PBN of that leaf. -/
structure LastSlot where
  slot : Nat
  pbn : Nat

/-- A leaf page under rebuild: its stored PBN, initialized flag, and
unpacked entries. -/
structure LeafPage where
  pbn : Nat
  initialized : Bool
  entries : Nat → DataLocation

/-- Result of processing one page: the final entries, the amount added to
`*logicalBlocksUsed`, and the slots for which `requestVDOPageWrite` was
called. -/
structure PageOutcome where
  entries : Nat → DataLocation
  logicalDelta : Nat
  writeSlots : List Nat

/-- One iteration of the bogus-entry removal loop of
`rebuildReferenceCountsFromPage` (referenceCountRebuild.c:288-296): a mapped
entry at or past the last slot is overwritten with `(ZERO_BLOCK, UNMAPPED)`
and a page write is requested. -/
def scrubStep (acc : (Nat → DataLocation) × List Nat) (slot : Nat) :
    (Nat → DataLocation) × List Nat :=
  if isMappedLocation (acc.1 slot) then
    (fun i => if i = slot then unmappedEntry else acc.1 i, acc.2 ++ [slot])
  else acc

/-- One iteration of the accounting loop of `rebuildReferenceCountsFromPage`
(referenceCountRebuild.c:299-336): invalid entries are scrubbed; unmapped
entries are skipped; mapped entries are counted, then the zero block is
skipped, out-of-depot PBNs are scrubbed, and reference-count adjustment
failures are scrubbed. -/
def accountStep (env : Env) (acc : (Nat → DataLocation) × Nat × List Nat)
    (slot : Nat) : (Nat → DataLocation) × Nat × List Nat :=
  if ¬ env.isValidLocation (acc.1 slot) then
    (fun i => if i = slot then unmappedEntry else acc.1 i, acc.2.1,
      acc.2.2 ++ [slot])
  else if ¬ isMappedLocation (acc.1 slot) then acc
  else if (acc.1 slot).pbn = ZERO_BLOCK then (acc.1, acc.2.1 + 1, acc.2.2)
  else if ¬ env.isPhysicalDataBlock (acc.1 slot).pbn then
    (fun i => if i = slot then unmappedEntry else acc.1 i, acc.2.1 + 1,
      acc.2.2 ++ [slot])
  else if env.adjustRefCount (acc.1 slot).pbn ≠ VDO_SUCCESS then
    (fun i => if i = slot then unmappedEntry else acc.1 i, acc.2.1 + 1,
      acc.2.2 ++ [slot])
  else (acc.1, acc.2.1 + 1, acc.2.2)

/-- The whole bogus-entry removal pass (referenceCountRebuild.c:287-296): on
the final leaf (stored PBN equals `lastSlot.pbn`) every slot from
`lastSlot.slot` up to `BLOCK_MAP_ENTRIES_PER_PAGE` is scrubbed; other leaves
are left alone. -/
def scrubPass (env : Env) (last : LastSlot) (page : LeafPage) :
    (Nat → DataLocation) × List Nat :=
  if page.pbn = last.pbn then
    (List.range' last.slot (env.entriesPerPage - last.slot)).foldl scrubStep
      (page.entries, [])
  else (page.entries, [])

/-- Shallow embedding of `rebuildReferenceCountsFromPage`
(referenceCountRebuild.c:273-338): skip uninitialized pages; on the final
leaf, remove mapped entries at or past the last slot; then run the per-slot
accounting loop over every slot. -/
def rebuildReferenceCountsFromPage (env : Env) (last : LastSlot)
    (page : LeafPage) : PageOutcome :=
  if ¬ page.initialized then
    { entries := page.entries, logicalDelta := 0, writeSlots := [] }
  else
    let scrubbed := scrubPass env last page
    let accounted :=
      (List.range env.entriesPerPage).foldl (accountStep env)
        (scrubbed.1, 0, scrubbed.2)
    { entries := accounted.1, logicalDelta := accounted.2.1,
      writeSlots := accounted.2.2 }

/-- The contribution of a single already-scrubbed entry to
`*logicalBlocksUsed` in the accounting loop: one for a valid mapped
location, zero otherwise. -/
def usedContribution (env : Env) (l : DataLocation) : Nat :=
  if env.isValidLocation l ∧ isMappedLocation l then 1 else 0

end Rebuild

namespace SuperBlock

/-- The sector size (constants.h is external; the spec fixes the encoding to
the first 512-byte sector of a block-sized buffer). -/
def VDO_SECTOR_SIZE : Nat := 512

/-- The encoded size of a `struct header` (header.h is external; the spec
gives the header 16 bytes). -/
def ENCODED_HEADER_SIZE : Nat := 16

/-- The size of the stored CRC-32 checksum. -/
def CHECKSUM_SIZE : Nat := 4

/-- `SUPER_BLOCK_FIXED_SIZE = ENCODED_HEADER_SIZE + CHECKSUM_SIZE`
(superBlockCodec.c:36). -/
def SUPER_BLOCK_FIXED_SIZE : Nat := ENCODED_HEADER_SIZE + CHECKSUM_SIZE

/-- `MAX_COMPONENT_DATA_SIZE = VDO_SECTOR_SIZE - SUPER_BLOCK_FIXED_SIZE`
(superBlockCodec.c:37). -/
def MAX_COMPONENT_DATA_SIZE : Nat := VDO_SECTOR_SIZE - SUPER_BLOCK_FIXED_SIZE

/-- A decoded `struct header` (header.h is external): component id, version,
and payload size. -/
structure Header where
  id : Nat
  majorVersion : Nat
  minorVersion : Nat
  size : Nat
  deriving DecidableEq

/-- The `SUPER_BLOCK` component id (header.h is external; the value is
symbolic). -/
def SUPER_BLOCK_ID : Nat := 0

/-- The fixed 12.0 header template `SUPER_BLOCK_HEADER_12_0`
(superBlockCodec.c:40-50): version 12.0 with the minimum size — the fixed
size minus the encoded header, i.e. just the checksum. -/
def superBlockHeader12_0 : Header :=
  { id := SUPER_BLOCK_ID, majorVersion := 12, minorVersion := 0,
    size := SUPER_BLOCK_FIXED_SIZE - ENCODED_HEADER_SIZE }

/-- Modelled from the spec: `validate_header` (header.c is external).  The
spec's section 7 classifies a wrong id, size, or version of the super-block
header as `VDO_UNSUPPORTED_VERSION`; with `exact_size = false` the actual
size must be at least the template's. -/
def validateHeader (expected actual : Header) (exactSize : Bool) : Int :=
  if actual.id = expected.id ∧ actual.majorVersion = expected.majorVersion
      ∧ actual.minorVersion = expected.minorVersion
      ∧ (if exactSize then actual.size = expected.size
         else expected.size ≤ actual.size) then
    VDO_SUCCESS
  else VDO_UNSUPPORTED_VERSION

/-- Read a little-endian `uint32_t` (`get_uint32_le_from_buffer`) from the
byte list at an offset. -/
def readLE32 (bytes : List Nat) (offset : Nat) : Nat :=
  bytes.getD offset 0 + 256 * bytes.getD (offset + 1) 0
    + 65536 * bytes.getD (offset + 2) 0 + 16777216 * bytes.getD (offset + 3) 0

/-- Shallow embedding of `decode_super_block` (superBlockCodec.c:124-191)
over the first sector of the encoded super block.  `decodeHeader` stands for
the external `decode_header` codec applied to the first 16 bytes, and `crc`
for `update_crc32(INITIAL_CHECKSUM, buffer, length)` applied to a byte
prefix; both are abstract.  After decoding and validating the header, a size
larger than the remaining sector content is `VDO_UNSUPPORTED_VERSION`; then
the component payload (everything but the trailing checksum) is copied out,
the CRC is computed over every byte before the stored checksum, and a
mismatch with the stored (little-endian) checksum is
`VDO_CHECKSUM_MISMATCH`. -/
def decodeSuperBlock (decodeHeader : List Nat → Header) (crc : List Nat → Nat)
    (sector : List Nat) : Int :=
  let header := decodeHeader (sector.take ENCODED_HEADER_SIZE)
  let v := validateHeader superBlockHeader12_0 header false
  if v ≠ VDO_SUCCESS then v
  else if sector.length - ENCODED_HEADER_SIZE < header.size then
    VDO_UNSUPPORTED_VERSION
  else
    let componentDataSize := header.size - CHECKSUM_SIZE
    if MAX_COMPONENT_DATA_SIZE < componentDataSize then UDS_BUFFER_ERROR
    else
      let checksum := crc (sector.take (ENCODED_HEADER_SIZE + componentDataSize))
      let saved := readLE32 sector (ENCODED_HEADER_SIZE + componentDataSize)
      if checksum ≠ saved then VDO_CHECKSUM_MISMATCH else VDO_SUCCESS

end SuperBlock

namespace MasterIndex

/-- One step of the per-zone delta-list stream, as observed by the inner loop
of `restore_master_index_body` (masterIndexOps.c:196-213).  The callees
(`read_saved_delta_list`, `restore_delta_list_to_master_index`,
masterIndex005/006.c) are external, so each step records their results:
`eof` is a read returning `UDS_END_OF_FILE`, `readFailed` a read returning
some other non-success code, and `record` a successful read whose subsequent
restore call returned the given code. -/
inductive ReadStep where
  | eof
  | readFailed (code : Int)
  | record (restoreResult : Int)

/-- The inner `for (;;)` loop for one zone: read delta lists until
`UDS_END_OF_FILE` (`some none`), stopping with `some (some e)` on a failing
read or restore.  `none` means the stream ran out without a terminal step
(the real reader would block; theorems assume terminating streams). -/
def restoreZone : List ReadStep → Option (Option Int)
  | [] => none
  | .eof :: _ => some none
  | .readFailed code :: _ => some (some code)
  | .record r :: rest => if r = UDS_SUCCESS then restoreZone rest else some (some r)

/-- The outer per-zone loop of `restore_master_index_body`: zones are
processed in order; the first failing zone ends the restore with its error. -/
def restoreAllZones : List (List ReadStep) → Option (Option Int)
  | [] => some none
  | z :: rest =>
    match restoreZone z with
    | none => none
    | some (some e) => some (some e)
    | some none => restoreAllZones rest

/-- Shallow embedding of `restore_master_index_body` (masterIndexOps.c:180-221)
as observed through its collaborators: `startResult` is the result of
`start_restoring_master_index`, `zones` the per-zone streams, and
`restoreDone` the result of `is_restoring_master_index_done` after all zones.
The outcome is the returned code paired with whether
`abort_restoring_master_index` was called; `none` marks a stream that ran
out (excluded by the theorems' hypotheses).  `restore_master_index`
(masterIndexOps.c:224-238) allocates the `DELTA_LIST_MAX_BYTE_COUNT` scratch
buffer and delegates here. -/
def restoreMasterIndexBody (startResult : Int) (zones : List (List ReadStep))
    (restoreDone : Bool) : Option (Int × Bool) :=
  if startResult ≠ UDS_SUCCESS then some (startResult, false)
  else
    match restoreAllZones zones with
    | none => none
    | some (some e) => some (e, true)
    | some none =>
      if restoreDone then some (UDS_SUCCESS, false)
      else some (UDS_CORRUPT_COMPONENT, true)

end MasterIndex

end Vdo

open Vdo

/-! ## Theorems -/

@[simp]
theorem emit_flusher (s : TreeZone.ZoneState) (a : TreeZone.Action) :
    (TreeZone.emit s a).flusher = s.flusher := rfl

@[simp]
theorem emit_generation (s : TreeZone.ZoneState) (a : TreeZone.Action) :
    (TreeZone.emit s a).generation = s.generation := rfl

@[simp]
theorem emit_oldestGeneration (s : TreeZone.ZoneState) (a : TreeZone.Action) :
    (TreeZone.emit s a).oldestGeneration = s.oldestGeneration := rfl

@[simp]
theorem emit_dirtyPageCounts (s : TreeZone.ZoneState) (a : TreeZone.Action) :
    (TreeZone.emit s a).dirtyPageCounts = s.dirtyPageCounts := rfl

@[simp]
theorem emit_poolFree (s : TreeZone.ZoneState) (a : TreeZone.Action) :
    (TreeZone.emit s a).poolFree = s.poolFree := rfl

@[simp]
theorem emit_poolWaiters (s : TreeZone.ZoneState) (a : TreeZone.Action) :
    (TreeZone.emit s a).poolWaiters = s.poolWaiters := rfl

@[simp]
theorem emit_flushWaiters (s : TreeZone.ZoneState) (a : TreeZone.Action) :
    (TreeZone.emit s a).flushWaiters = s.flushWaiters := rfl

@[simp]
theorem emit_pages (s : TreeZone.ZoneState) (a : TreeZone.Action) :
    (TreeZone.emit s a).pages = s.pages := rfl

@[simp]
theorem emit_readOnly (s : TreeZone.ZoneState) (a : TreeZone.Action) :
    (TreeZone.emit s a).readOnly = s.readOnly := rfl

@[simp]
theorem setPage_readOnly (s : TreeZone.ZoneState) (p : TreeZone.PageId)
    (f : TreeZone.TreePage → TreeZone.TreePage) :
    (TreeZone.setPage s p f).readOnly = s.readOnly := rfl

@[simp]
theorem emit_trace (s : TreeZone.ZoneState) (a : TreeZone.Action) :
    (TreeZone.emit s a).trace = s.trace ++ [a] := rfl

@[simp]
theorem setPage_flusher (s : TreeZone.ZoneState) (p : TreeZone.PageId)
    (f : TreeZone.TreePage → TreeZone.TreePage) :
    (TreeZone.setPage s p f).flusher = s.flusher := rfl

@[simp]
theorem setPage_generation (s : TreeZone.ZoneState) (p : TreeZone.PageId)
    (f : TreeZone.TreePage → TreeZone.TreePage) :
    (TreeZone.setPage s p f).generation = s.generation := rfl

@[simp]
theorem setPage_oldestGeneration (s : TreeZone.ZoneState) (p : TreeZone.PageId)
    (f : TreeZone.TreePage → TreeZone.TreePage) :
    (TreeZone.setPage s p f).oldestGeneration = s.oldestGeneration := rfl

@[simp]
theorem setPage_dirtyPageCounts (s : TreeZone.ZoneState) (p : TreeZone.PageId)
    (f : TreeZone.TreePage → TreeZone.TreePage) :
    (TreeZone.setPage s p f).dirtyPageCounts = s.dirtyPageCounts := rfl

@[simp]
theorem setPage_poolFree (s : TreeZone.ZoneState) (p : TreeZone.PageId)
    (f : TreeZone.TreePage → TreeZone.TreePage) :
    (TreeZone.setPage s p f).poolFree = s.poolFree := rfl

@[simp]
theorem setPage_poolWaiters (s : TreeZone.ZoneState) (p : TreeZone.PageId)
    (f : TreeZone.TreePage → TreeZone.TreePage) :
    (TreeZone.setPage s p f).poolWaiters = s.poolWaiters := rfl

@[simp]
theorem setPage_flushWaiters (s : TreeZone.ZoneState) (p : TreeZone.PageId)
    (f : TreeZone.TreePage → TreeZone.TreePage) :
    (TreeZone.setPage s p f).flushWaiters = s.flushWaiters := rfl

@[simp]
theorem setPage_trace (s : TreeZone.ZoneState) (p : TreeZone.PageId)
    (f : TreeZone.TreePage → TreeZone.TreePage) :
    (TreeZone.setPage s p f).trace = s.trace := rfl

@[simp]
theorem setPage_pages (s : TreeZone.ZoneState) (p : TreeZone.PageId)
    (f : TreeZone.TreePage → TreeZone.TreePage) (q : TreeZone.PageId) :
    (TreeZone.setPage s p f).pages q = if q = p then f (s.pages q) else s.pages q :=
  rfl

/-- Field effects of `writePageLaunch`: it touches only the written page's
record and appends exactly one write launch for this page and entry. -/
theorem writePageLaunch_effects (s : TreeZone.ZoneState) (p : TreeZone.PageId)
    (e : TreeZone.EntryId) :
    ∃ flag,
      (TreeZone.writePageLaunch s p e).trace =
        s.trace ++ [TreeZone.Action.launchWrite p e flag] ∧
      (∀ q, q ≠ p → (TreeZone.writePageLaunch s p e).pages q = s.pages q) ∧
      (TreeZone.writePageLaunch s p e).dirtyPageCounts = s.dirtyPageCounts ∧
      (TreeZone.writePageLaunch s p e).flusher = s.flusher ∧
      (TreeZone.writePageLaunch s p e).generation = s.generation ∧
      (TreeZone.writePageLaunch s p e).oldestGeneration = s.oldestGeneration ∧
      (TreeZone.writePageLaunch s p e).poolFree = s.poolFree ∧
      (TreeZone.writePageLaunch s p e).poolWaiters = s.poolWaiters ∧
      (TreeZone.writePageLaunch s p e).flushWaiters = s.flushWaiters := by
  unfold TreeZone.writePageLaunch TreeZone.writeInitializedPage
  cases hini : (s.pages p).initialized
  · simp only [hini]
    refine ⟨_, rfl, ?_, rfl, rfl, rfl, rfl, rfl, rfl, rfl⟩
    intro q hq
    simp [hq]
  · simp only [hini]
    refine ⟨_, rfl, ?_, rfl, rfl, rfl, rfl, rfl, rfl, rfl⟩
    intro q hq
    simp [hq]

/-- Field effects of `enqueueFlushWaiter`. -/
theorem enqueueFlushWaiter_effects (s : TreeZone.ZoneState) (p : TreeZone.PageId) :
    (TreeZone.enqueueFlushWaiter s p).trace = s.trace ∧
    (∀ q, q ≠ p → (TreeZone.enqueueFlushWaiter s p).pages q = s.pages q) ∧
    (TreeZone.enqueueFlushWaiter s p).dirtyPageCounts = s.dirtyPageCounts ∧
    (TreeZone.enqueueFlushWaiter s p).flusher = s.flusher ∧
    (TreeZone.enqueueFlushWaiter s p).generation = s.generation ∧
    (TreeZone.enqueueFlushWaiter s p).oldestGeneration = s.oldestGeneration ∧
    (TreeZone.enqueueFlushWaiter s p).poolFree = s.poolFree ∧
    (TreeZone.enqueueFlushWaiter s p).poolWaiters = s.poolWaiters ∧
    (TreeZone.enqueueFlushWaiter s p).flushWaiters = s.flushWaiters ++ [p] := by
  unfold TreeZone.enqueueFlushWaiter
  refine ⟨rfl, ?_, rfl, rfl, rfl, rfl, rfl, rfl, rfl⟩
  intro q hq
  simp [hq]

/-- Field effects of `enqueuePoolWaiter`. -/
theorem enqueuePoolWaiter_effects (s : TreeZone.ZoneState) (p : TreeZone.PageId) :
    (TreeZone.enqueuePoolWaiter s p).trace = s.trace ∧
    (∀ q, q ≠ p → (TreeZone.enqueuePoolWaiter s p).pages q = s.pages q) ∧
    (TreeZone.enqueuePoolWaiter s p).dirtyPageCounts = s.dirtyPageCounts ∧
    (TreeZone.enqueuePoolWaiter s p).flusher = s.flusher ∧
    (TreeZone.enqueuePoolWaiter s p).generation = s.generation ∧
    (TreeZone.enqueuePoolWaiter s p).oldestGeneration = s.oldestGeneration ∧
    (TreeZone.enqueuePoolWaiter s p).poolFree = s.poolFree ∧
    (TreeZone.enqueuePoolWaiter s p).poolWaiters = s.poolWaiters ++ [p] ∧
    (TreeZone.enqueuePoolWaiter s p).flushWaiters = s.flushWaiters := by
  unfold TreeZone.enqueuePoolWaiter
  refine ⟨rfl, ?_, rfl, rfl, rfl, rfl, rfl, rfl, rfl⟩
  intro q hq
  simp [hq]

/-- C2: for every zone state (with in-range 8-bit generations),
`attempt_increment` returns true and advances the zone generation by one
(mod 256) exactly when `oldest_generation` differs from `generation + 1`
(mod 256); equivalently it returns false iff
`(generation - oldest_generation + 1) mod 256 = 0`, so all 256 generations
being in flight is the only failure case. -/
theorem claim_C2_attempt_increment (s : TreeZone.ZoneState)
    (hg : s.generation < 256) (ho : s.oldestGeneration < 256) :
    (((TreeZone.attemptIncrement s).1 = true ∧
        (TreeZone.attemptIncrement s).2.generation = (s.generation + 1) % 256) ↔
      s.oldestGeneration ≠ (s.generation + 1) % 256) ∧
    ((TreeZone.attemptIncrement s).1 = false ↔
      (s.generation + 256 - s.oldestGeneration + 1) % 256 = 0) := by
  constructor
  · by_cases h : s.oldestGeneration = (s.generation + 1) % 256 <;>
      simp [TreeZone.attemptIncrement, h]
  · by_cases h : s.oldestGeneration = (s.generation + 1) % 256 <;>
      simp [TreeZone.attemptIncrement, h] <;> omega

/-- Witness for C2 at a concrete fresh zone. -/
theorem claim_C2_witness :
    TreeZone.freshZone.generation < 256 ∧
    (((TreeZone.attemptIncrement TreeZone.freshZone).1 = true ∧
        (TreeZone.attemptIncrement TreeZone.freshZone).2.generation =
          (TreeZone.freshZone.generation + 1) % 256) ↔
      TreeZone.freshZone.oldestGeneration ≠ (TreeZone.freshZone.generation + 1) % 256) :=
  ⟨by decide, (claim_C2_attempt_increment TreeZone.freshZone (by decide) (by decide)).1⟩

/-- The advance loop of `release_generation` terminates, for in-range 8-bit
generations, on a bucket that is non-empty or equal to the current
generation, provided the fuel exceeds the cyclic distance to the current
generation. -/
theorem advanceOldest_reaches (counts : Nat → Nat) (g : Nat) (hg : g < 256) :
    ∀ fuel o, o < 256 → (g + 256 - o) % 256 < fuel →
      TreeZone.advanceOldest counts g fuel o = g ∨
        counts (TreeZone.advanceOldest counts g fuel o) ≠ 0 := by
  intro fuel
  induction fuel with
  | zero => intro o ho hd; omega
  | succ n ih =>
    intro o ho hd
    unfold TreeZone.advanceOldest
    split
    · next h =>
      obtain ⟨h0, h1⟩ := h
      exact ih ((o + 1) % 256) (by omega) (by omega)
    · next h =>
      rcases Decidable.not_and_iff_or_not.mp h with h1 | h2
      · exact Or.inr h1
      · exact Or.inl (Decidable.not_not.mp h2)

/-- C9: after a call of `release_generation` that does not enter read-only
mode (the released bucket is non-empty), the zone's oldest generation either
equals the current generation or indexes a non-empty dirty-page bucket; the
oldest pointer is advanced past every empty bucket.  Read-only mode is
indeed not entered. -/
theorem claim_C9_release_generation (s : TreeZone.ZoneState) (generation : Nat)
    (hg : s.generation < 256) (ho : s.oldestGeneration < 256)
    (hc : s.dirtyPageCounts generation ≠ 0) :
    ((TreeZone.releaseGeneration s generation).oldestGeneration =
        (TreeZone.releaseGeneration s generation).generation ∨
      0 < (TreeZone.releaseGeneration s generation).dirtyPageCounts
        ((TreeZone.releaseGeneration s generation).oldestGeneration)) ∧
    (TreeZone.releaseGeneration s generation).readOnly = s.readOnly := by
  simp only [TreeZone.releaseGeneration, if_neg hc]
  constructor
  · have h := advanceOldest_reaches
      (fun i => if i = generation then s.dirtyPageCounts generation - 1
                else s.dirtyPageCounts i)
      s.generation hg 256 s.oldestGeneration ho
      (Nat.mod_lt _ (by omega))
    rcases h with h | h
    · exact Or.inl h
    · exact Or.inr (Nat.pos_of_ne_zero h)
  · trivial

/-- Witness for C9 at a concrete zone mid-flush. -/
theorem claim_C9_witness :
    TreeZone.rewriteZone.dirtyPageCounts 0 ≠ 0 ∧
    ((TreeZone.releaseGeneration TreeZone.rewriteZone 0).oldestGeneration =
        (TreeZone.releaseGeneration TreeZone.rewriteZone 0).generation ∨
      0 < (TreeZone.releaseGeneration TreeZone.rewriteZone 0).dirtyPageCounts
        ((TreeZone.releaseGeneration TreeZone.rewriteZone 0).oldestGeneration)) :=
  ⟨by decide,
    (claim_C9_release_generation TreeZone.rewriteZone 0 (by decide) (by decide)
      (by decide)).1⟩

/-- C5: when a lookup holding a page lock aborts with error result `r`,
every waiter on that lock is finished with the translated result: a
read-request waiter receives `VDO_SUCCESS` when `r = VDO_NO_SPACE` and `r`
unchanged otherwise, while a non-read waiter receives `VDO_READ_ONLY` for
every `r ≠ VDO_NO_SPACE` and `VDO_NO_SPACE` unchanged. -/
theorem claim_C5_abort_lookup (lock : AbortLookup.LockState) (r : Int)
    (h : lock.locked = true) :
    (AbortLookup.abortLookup lock r).waiterResults =
      lock.waiters.map (fun w => AbortLookup.translateWaiterResult w.isRead r) ∧
    ∀ w ∈ lock.waiters,
      (w.isRead = true →
        (r = VDO_NO_SPACE →
          AbortLookup.translateWaiterResult w.isRead r = VDO_SUCCESS) ∧
        (r ≠ VDO_NO_SPACE →
          AbortLookup.translateWaiterResult w.isRead r = r)) ∧
      (w.isRead = false →
        (r ≠ VDO_NO_SPACE →
          AbortLookup.translateWaiterResult w.isRead r = VDO_READ_ONLY) ∧
        (r = VDO_NO_SPACE →
          AbortLookup.translateWaiterResult w.isRead r = VDO_NO_SPACE)) := by
  refine ⟨by simp [AbortLookup.abortLookup, h], ?_⟩
  intro w _
  constructor
  · intro hw
    constructor <;> intro hns <;>
      simp [AbortLookup.translateWaiterResult, hw, hns]
  · intro hw
    constructor <;> intro hns <;>
      simp [AbortLookup.translateWaiterResult, hw, hns]

/-- Witness for C5 with one read waiter and one write waiter aborting with a
generic error. -/
theorem claim_C5_witness :
    (AbortLookup.abortLookup ⟨true, [⟨true⟩, ⟨false⟩]⟩ VDO_READ_ONLY).waiterResults =
      ([⟨true⟩, ⟨false⟩] : List AbortLookup.Waiter).map
        (fun w => AbortLookup.translateWaiterResult w.isRead VDO_READ_ONLY) :=
  (claim_C5_abort_lookup ⟨true, [⟨true⟩, ⟨false⟩]⟩ VDO_READ_ONLY rfl).1

/-- C10: `find_block_map_page_pbn` returns `BLOCK_MAP_FLAT_PAGE_ORIGIN +
page_number` for flat pages; for arboreal pages it returns `ZERO_BLOCK` when
the covering height-1 page is uninitialized or its entry is invalid or
compressed, and the entry's PBN otherwise. -/
theorem claim_C10_find_block_map_page_pbn (fmt : PageFind.PageFormat)
    (map : PageFind.BlockMap) (n : Nat) :
    (n < map.flatPageCount →
      PageFind.findBlockMapPagePBN fmt map n = map.flatPageOrigin + n) ∧
    (map.flatPageCount ≤ n →
      ∀ (page : PageFind.MapPage) (mapping : DataLocation),
        page = map.forest (n % map.rootCount) 1
          (((n - map.flatPageCount) / map.rootCount) / map.entriesPerPage) →
        mapping = page.entries
          (((n - map.flatPageCount) / map.rootCount) % map.entriesPerPage) →
        (page.initialized = false →
          PageFind.findBlockMapPagePBN fmt map n = ZERO_BLOCK) ∧
        (page.initialized = true →
          (fmt.isValidLocation mapping = false ∨
            fmt.isCompressed mapping.state = true) →
          PageFind.findBlockMapPagePBN fmt map n = ZERO_BLOCK) ∧
        (page.initialized = true → fmt.isValidLocation mapping = true →
          fmt.isCompressed mapping.state = false →
          PageFind.findBlockMapPagePBN fmt map n = mapping.pbn)) := by
  constructor
  · intro hlt
    simp [PageFind.findBlockMapPagePBN, hlt]
  · intro hge page mapping hpage hmapping
    have hnlt : ¬ n < map.flatPageCount := by omega
    refine ⟨?_, ?_, ?_⟩
    · intro hinit
      simp [PageFind.findBlockMapPagePBN, hnlt, ← hpage, hinit]
    · intro hinit hbad
      rcases hbad with hb | hb <;>
        simp [PageFind.findBlockMapPagePBN, hnlt, ← hpage, ← hmapping, hinit, hb]
    · intro hinit hv hc
      simp [PageFind.findBlockMapPagePBN, hnlt, ← hpage, ← hmapping, hinit, hv, hc]

/-- Witness for C10 at a one-root tree with an all-mapped forest. -/
theorem claim_C10_witness :
    (⟨0, 1, 4, 1, fun _ _ _ => ⟨true, fun _ => ⟨3, 1⟩⟩⟩ :
        PageFind.BlockMap).flatPageCount ≤ 2 ∧
    PageFind.findBlockMapPagePBN ⟨fun _ => true, fun _ => false⟩
      ⟨0, 1, 4, 1, fun _ _ _ => ⟨true, fun _ => ⟨3, 1⟩⟩⟩ 2 = 3 := by
  refine ⟨by decide, ?_⟩
  have h := (claim_C10_find_block_map_page_pbn ⟨fun _ => true, fun _ => false⟩
    ⟨0, 1, 4, 1, fun _ _ _ => ⟨true, fun _ => ⟨3, 1⟩⟩⟩ 2).2 (by decide)
    ⟨true, fun _ => ⟨3, 1⟩⟩ ⟨3, 1⟩ rfl rfl
  exact h.2.2 rfl rfl rfl

/-- The spec-modelled `validate_header` returns either success or the
unsupported-version error. -/
theorem validateHeader_eq_or (expected actual : SuperBlock.Header) (exactSize : Bool) :
    SuperBlock.validateHeader expected actual exactSize = VDO_SUCCESS ∨
    SuperBlock.validateHeader expected actual exactSize = VDO_UNSUPPORTED_VERSION := by
  unfold SuperBlock.validateHeader
  by_cases h : actual.id = expected.id ∧ actual.majorVersion = expected.majorVersion
      ∧ actual.minorVersion = expected.minorVersion
      ∧ (if exactSize then actual.size = expected.size
         else expected.size ≤ actual.size)
  · exact Or.inl (if_pos h)
  · exact Or.inr (if_neg h)

/-- C7: `decode_super_block` returns `VDO_UNSUPPORTED_VERSION` whenever the
decoded header's size exceeds the bytes remaining in the sector after the
header; and, for a header that validates against the fixed 12.0 template and
fits, it returns `VDO_CHECKSUM_MISMATCH` exactly when the CRC-32 over all
bytes preceding the stored checksum differs from the stored checksum, and
`VDO_SUCCESS` otherwise. -/
theorem claim_C7_decode_super_block (dh : List Nat → SuperBlock.Header)
    (crc : List Nat → Nat) (sector : List Nat)
    (hlen : sector.length = SuperBlock.VDO_SECTOR_SIZE) :
    (SuperBlock.VDO_SECTOR_SIZE - SuperBlock.ENCODED_HEADER_SIZE <
        (dh (sector.take SuperBlock.ENCODED_HEADER_SIZE)).size →
      SuperBlock.decodeSuperBlock dh crc sector = VDO_UNSUPPORTED_VERSION) ∧
    (SuperBlock.validateHeader SuperBlock.superBlockHeader12_0
        (dh (sector.take SuperBlock.ENCODED_HEADER_SIZE)) false = VDO_SUCCESS →
      (dh (sector.take SuperBlock.ENCODED_HEADER_SIZE)).size ≤
        SuperBlock.VDO_SECTOR_SIZE - SuperBlock.ENCODED_HEADER_SIZE →
      ∀ checksummedLength : Nat,
        checksummedLength = SuperBlock.ENCODED_HEADER_SIZE +
          ((dh (sector.take SuperBlock.ENCODED_HEADER_SIZE)).size -
            SuperBlock.CHECKSUM_SIZE) →
        (SuperBlock.decodeSuperBlock dh crc sector = VDO_CHECKSUM_MISMATCH ↔
          crc (sector.take checksummedLength) ≠
            SuperBlock.readLE32 sector checksummedLength) ∧
        (SuperBlock.decodeSuperBlock dh crc sector = VDO_SUCCESS ↔
          crc (sector.take checksummedLength) =
            SuperBlock.readLE32 sector checksummedLength)) := by
  constructor
  · intro hsize
    rcases validateHeader_eq_or SuperBlock.superBlockHeader12_0
        (dh (sector.take SuperBlock.ENCODED_HEADER_SIZE)) false with hv | hv
    · have hrem : sector.length - SuperBlock.ENCODED_HEADER_SIZE <
          (dh (sector.take SuperBlock.ENCODED_HEADER_SIZE)).size := by
        rw [hlen]; exact hsize
      simp [SuperBlock.decodeSuperBlock, hv, hrem, VDO_SUCCESS,
        VDO_UNSUPPORTED_VERSION]
    · simp [SuperBlock.decodeSuperBlock, hv, VDO_SUCCESS, VDO_UNSUPPORTED_VERSION]
  · intro hv hsize checksummedLength hcl
    have hrem : ¬ sector.length - SuperBlock.ENCODED_HEADER_SIZE <
        (dh (sector.take SuperBlock.ENCODED_HEADER_SIZE)).size := by
      rw [hlen]; omega
    have hmax : ¬ SuperBlock.MAX_COMPONENT_DATA_SIZE <
        (dh (sector.take SuperBlock.ENCODED_HEADER_SIZE)).size -
          SuperBlock.CHECKSUM_SIZE := by
      have h496 : SuperBlock.VDO_SECTOR_SIZE - SuperBlock.ENCODED_HEADER_SIZE = 496 := by
        decide
      have hm : SuperBlock.MAX_COMPONENT_DATA_SIZE = 492 := by decide
      have hc4 : SuperBlock.CHECKSUM_SIZE = 4 := by decide
      omega
    by_cases hcrc : crc (sector.take checksummedLength) =
        SuperBlock.readLE32 sector checksummedLength
    · subst hcl
      simp [SuperBlock.decodeSuperBlock, hv, hrem, hmax, hcrc, VDO_SUCCESS,
        VDO_CHECKSUM_MISMATCH]
    · subst hcl
      simp [SuperBlock.decodeSuperBlock, hv, hrem, hmax, hcrc, VDO_SUCCESS,
        VDO_CHECKSUM_MISMATCH]

/-- Witness for C7 at an all-zero sector whose header decodes to the 12.0
template and whose CRC collaborator returns zero. -/
theorem claim_C7_witness :
    SuperBlock.validateHeader SuperBlock.superBlockHeader12_0
      ((fun _ => SuperBlock.superBlockHeader12_0)
        ((List.replicate 512 0).take SuperBlock.ENCODED_HEADER_SIZE)) false =
      VDO_SUCCESS ∧
    (SuperBlock.decodeSuperBlock (fun _ => SuperBlock.superBlockHeader12_0)
        (fun _ => 0) (List.replicate 512 0) = VDO_SUCCESS ↔
      (fun _ : List Nat => 0) ((List.replicate 512 0).take 16) =
        SuperBlock.readLE32 (List.replicate 512 0) 16) := by
  refine ⟨by decide, ?_⟩
  have h := (claim_C7_decode_super_block (fun _ => SuperBlock.superBlockHeader12_0)
    (fun _ => 0) (List.replicate 512 0) (by decide)).2 (by decide) (by decide)
    16 (by decide)
  exact h.2

/-- The inner restore loop consumes any number of successfully restored
delta-list records. -/
theorem restoreZone_replicate (n : Nat) (tail : List MasterIndex.ReadStep) :
    MasterIndex.restoreZone
        (List.replicate n (.record UDS_SUCCESS) ++ tail) =
      MasterIndex.restoreZone tail := by
  induction n with
  | zero => rfl
  | succ m ih => simpa [List.replicate_succ, MasterIndex.restoreZone] using ih

/-- C8: the restore path reads the header section (a failing start returns
its error without aborting), then per zone loops reading delta-list records
until `UDS_END_OF_FILE`; any other read or restore error aborts the restore
and is returned; and when after all zones the restore is not complete it
aborts and returns `UDS_CORRUPT_COMPONENT` (completing normally otherwise). -/
theorem claim_C8_restore_master_index (zones : List (List MasterIndex.ReadStep))
    (startResult e c : Int) (done : Bool) (n : Nat)
    (rest : List MasterIndex.ReadStep) :
    (MasterIndex.restoreZone
        (List.replicate n (.record UDS_SUCCESS) ++ .eof :: rest) = some none) ∧
    (c ≠ UDS_SUCCESS →
      MasterIndex.restoreZone
          (List.replicate n (.record UDS_SUCCESS) ++ .record c :: rest) =
        some (some c)) ∧
    (MasterIndex.restoreZone
        (List.replicate n (.record UDS_SUCCESS) ++ .readFailed c :: rest) =
      some (some c)) ∧
    (MasterIndex.restoreAllZones zones = some (some e) →
      MasterIndex.restoreMasterIndexBody UDS_SUCCESS zones done = some (e, true)) ∧
    (MasterIndex.restoreAllZones zones = some none → done = false →
      MasterIndex.restoreMasterIndexBody UDS_SUCCESS zones done =
        some (UDS_CORRUPT_COMPONENT, true)) ∧
    (MasterIndex.restoreAllZones zones = some none → done = true →
      MasterIndex.restoreMasterIndexBody UDS_SUCCESS zones done =
        some (UDS_SUCCESS, false)) ∧
    (startResult ≠ UDS_SUCCESS →
      MasterIndex.restoreMasterIndexBody startResult zones done =
        some (startResult, false)) := by
  refine ⟨?_, ?_, ?_, ?_, ?_, ?_, ?_⟩
  · rw [restoreZone_replicate]; rfl
  · intro hc
    rw [restoreZone_replicate]
    simp [MasterIndex.restoreZone, hc]
  · rw [restoreZone_replicate]; rfl
  · intro hz
    simp [MasterIndex.restoreMasterIndexBody, hz]
  · intro hz hd
    simp [MasterIndex.restoreMasterIndexBody, hz, hd]
  · intro hz hd
    simp [MasterIndex.restoreMasterIndexBody, hz, hd]
  · intro hs
    simp [MasterIndex.restoreMasterIndexBody, hs]

/-- Witness for C8: one zone whose stream is a single end-of-file marker with
the restore reported complete, and a failing start code. -/
theorem claim_C8_witness :
    MasterIndex.restoreAllZones [[MasterIndex.ReadStep.eof]] = some none ∧
    MasterIndex.restoreMasterIndexBody UDS_SUCCESS [[MasterIndex.ReadStep.eof]]
      true = some (UDS_SUCCESS, false) := by
  refine ⟨rfl, ?_⟩
  exact (claim_C8_restore_master_index [[MasterIndex.ReadStep.eof]] UDS_SUCCESS 0 0
    true 0 []).2.2.2.2.2.1 rfl rfl

/-- The scrub loop never touches a slot outside the iterated list. -/
theorem scrubFold_entries_other (slot : Nat) :
    ∀ (l : List Nat), slot ∉ l → ∀ acc : (Nat → DataLocation) × List Nat,
      (l.foldl Rebuild.scrubStep acc).1 slot = acc.1 slot := by
  intro l
  induction l with
  | nil => intro _ acc; rfl
  | cons a t ih =>
    intro hs acc
    simp only [List.foldl_cons]
    rw [ih (fun h => hs (List.mem_cons_of_mem a h))]
    unfold Rebuild.scrubStep
    split
    · simp only
      rw [if_neg]
      intro h
      rw [h] at hs
      exact hs (List.mem_cons_self a t)
    · rfl

/-- The scrub loop only appends to the requested-write list. -/
theorem scrubFold_writes_mono (x : Nat) :
    ∀ (l : List Nat) (acc : (Nat → DataLocation) × List Nat),
      x ∈ acc.2 → x ∈ (l.foldl Rebuild.scrubStep acc).2 := by
  intro l
  induction l with
  | nil => intro acc h; exact h
  | cons a t ih =>
    intro acc h
    simp only [List.foldl_cons]
    apply ih
    unfold Rebuild.scrubStep
    split
    · exact List.mem_append_left _ h
    · exact h

/-- A mapped slot in the iterated range is scrubbed to the unmapped entry
and has a write requested for it. -/
theorem scrubFold_hit (slot : Nat) :
    ∀ (l : List Nat), l.Nodup → slot ∈ l →
      ∀ acc : (Nat → DataLocation) × List Nat,
        isMappedLocation (acc.1 slot) = true →
        (l.foldl Rebuild.scrubStep acc).1 slot = Rebuild.unmappedEntry ∧
          slot ∈ (l.foldl Rebuild.scrubStep acc).2 := by
  intro l
  induction l with
  | nil => intro _ h; cases h
  | cons a t ih =>
    intro hnd hmem acc hmap
    simp only [List.foldl_cons]
    rcases List.mem_cons.mp hmem with rfl | hmem
    · have hnotin : slot ∉ t := (List.nodup_cons.mp hnd).1
      have hstep : (Rebuild.scrubStep acc slot).1 slot = Rebuild.unmappedEntry ∧
          slot ∈ (Rebuild.scrubStep acc slot).2 := by
        unfold Rebuild.scrubStep
        rw [if_pos hmap]
        exact ⟨by simp, List.mem_append_right _ (List.mem_singleton_self slot)⟩
      refine ⟨?_, scrubFold_writes_mono slot t _ hstep.2⟩
      rw [scrubFold_entries_other slot t hnotin]
      exact hstep.1
    · have ha : (Rebuild.scrubStep acc a).1 slot = acc.1 slot := by
        unfold Rebuild.scrubStep
        split
        · simp only
          rw [if_neg]
          intro h
          rw [h] at hmem
          exact (List.nodup_cons.mp hnd).1 hmem
        · rfl
      refine ih (List.nodup_cons.mp hnd).2 hmem _ ?_
      rw [ha]
      exact hmap

/-- The accounting loop only appends to the requested-write list. -/
theorem accountFold_writes_mono (env : Rebuild.Env) (x : Nat) :
    ∀ (l : List Nat) (acc : (Nat → DataLocation) × Nat × List Nat),
      x ∈ acc.2.2 → x ∈ (l.foldl (Rebuild.accountStep env) acc).2.2 := by
  intro l
  induction l with
  | nil => intro acc h; exact h
  | cons a t ih =>
    intro acc h
    simp only [List.foldl_cons]
    apply ih
    unfold Rebuild.accountStep
    split_ifs <;> first
      | exact h
      | exact List.mem_append_left _ h

/-- Whatever the accounting loop writes to a slot is the unmapped entry, so
an already-scrubbed slot stays scrubbed. -/
theorem accountFold_entry_preserved (env : Rebuild.Env) (slot : Nat) :
    ∀ (l : List Nat) (acc : (Nat → DataLocation) × Nat × List Nat),
      (l.foldl (Rebuild.accountStep env) acc).1 slot = acc.1 slot ∨
        (l.foldl (Rebuild.accountStep env) acc).1 slot = Rebuild.unmappedEntry := by
  intro l
  induction l with
  | nil => intro acc; exact Or.inl rfl
  | cons a t ih =>
    intro acc
    simp only [List.foldl_cons]
    have hstep : (Rebuild.accountStep env acc a).1 slot = acc.1 slot ∨
        (Rebuild.accountStep env acc a).1 slot = Rebuild.unmappedEntry := by
      unfold Rebuild.accountStep
      split_ifs <;> first
        | exact Or.inl rfl
        | (by_cases h : slot = a <;> simp [h])
    rcases ih (Rebuild.accountStep env acc a) with h | h
    · rw [h]; exact hstep
    · exact Or.inr h

/-- One accounting step adds exactly the slot's contribution to the logical
count and leaves other slots' entries alone. -/
theorem accountStep_effect (env : Rebuild.Env)
    (acc : (Nat → DataLocation) × Nat × List Nat) (a : Nat) :
    (Rebuild.accountStep env acc a).2.1 =
      acc.2.1 + Rebuild.usedContribution env (acc.1 a) ∧
    ∀ s, s ≠ a → (Rebuild.accountStep env acc a).1 s = acc.1 s := by
  constructor
  · unfold Rebuild.accountStep Rebuild.usedContribution
    split_ifs <;> simp_all
  · intro s hs
    unfold Rebuild.accountStep
    split_ifs <;> simp [hs]

/-- The accounting loop over distinct slots counts exactly the sum of the
per-slot contributions of the entries it started from. -/
theorem accountFold_sum (env : Rebuild.Env) :
    ∀ (l : List Nat), l.Nodup →
      ∀ (f e0 : Nat → DataLocation) (u : Nat) (ws : List Nat),
        (∀ s ∈ l, f s = e0 s) →
        (l.foldl (Rebuild.accountStep env) (f, u, ws)).2.1 =
          u + (l.map fun s => Rebuild.usedContribution env (e0 s)).sum := by
  intro l
  induction l with
  | nil => intro _ f e0 u ws _; simp
  | cons a t ih =>
    intro hnd f e0 u ws hagree
    simp only [List.foldl_cons, List.map_cons, List.sum_cons]
    have heff := accountStep_effect env (f, u, ws) a
    have hnext : ∀ s ∈ t, (Rebuild.accountStep env (f, u, ws) a).1 s = e0 s := by
      intro s hs
      have hne : s ≠ a := by
        intro h; rw [h] at hs; exact (List.nodup_cons.mp hnd).1 hs
      rw [heff.2 s hne]
      exact hagree s (List.mem_cons_of_mem a hs)
    have hrepr : Rebuild.accountStep env (f, u, ws) a =
        ((Rebuild.accountStep env (f, u, ws) a).1,
          (Rebuild.accountStep env (f, u, ws) a).2.1,
          (Rebuild.accountStep env (f, u, ws) a).2.2) := rfl
    rw [hrepr, ih (List.nodup_cons.mp hnd).2 _ e0 _ _ hnext, heff.1]
    have hfa : f a = e0 a := hagree a (List.mem_cons_self a t)
    show u + Rebuild.usedContribution env (f a) +
        (List.map (fun s => Rebuild.usedContribution env (e0 s)) t).sum =
      u + (Rebuild.usedContribution env (e0 a) +
        (List.map (fun s => Rebuild.usedContribution env (e0 s)) t).sum)
    rw [hfa]
    omega

/-- C6: during rebuild, on a loaded initialized leaf whose stored PBN equals
`lastSlot.pbn`, every slot at or past `lastSlot.slot` carrying a mapped
entry is overwritten with `(ZERO_BLOCK, MAPPING_STATE_UNMAPPED)`, a page
write is requested for it, and it contributes nothing to
`*logicalBlocksUsed` in the subsequent per-slot accounting pass (whose total
is the sum of the scrubbed page's per-slot contributions). -/
theorem claim_C6_rebuild_scrubs_tail (env : Rebuild.Env)
    (last : Rebuild.LastSlot) (page : Rebuild.LeafPage) (slot : Nat)
    (hinit : page.initialized = true) (hpbn : page.pbn = last.pbn)
    (hlo : last.slot ≤ slot) (hhi : slot < env.entriesPerPage)
    (hm : isMappedLocation (page.entries slot) = true) :
    (Rebuild.rebuildReferenceCountsFromPage env last page).entries slot =
      Rebuild.unmappedEntry ∧
    slot ∈ (Rebuild.rebuildReferenceCountsFromPage env last page).writeSlots ∧
    (Rebuild.rebuildReferenceCountsFromPage env last page).logicalDelta =
      ((List.range env.entriesPerPage).map
        (fun s => Rebuild.usedContribution env ((Rebuild.scrubPass env last page).1 s))).sum ∧
    Rebuild.usedContribution env ((Rebuild.scrubPass env last page).1 slot) = 0 := by
  have hmemr : slot ∈ List.range' last.slot (env.entriesPerPage - last.slot) := by
    rw [List.mem_range'_1]
    exact ⟨hlo, by omega⟩
  have hndr : (List.range' last.slot (env.entriesPerPage - last.slot)).Nodup := by
    have := List.nodup_range' (s := last.slot) (n := env.entriesPerPage - last.slot)
    simpa using this
  have hscrub := scrubFold_hit slot _ hndr hmemr (page.entries, []) hm
  have hsp1 : (Rebuild.scrubPass env last page).1 slot = Rebuild.unmappedEntry := by
    unfold Rebuild.scrubPass
    rw [if_pos hpbn]
    exact hscrub.1
  have hsp2 : slot ∈ (Rebuild.scrubPass env last page).2 := by
    unfold Rebuild.scrubPass
    rw [if_pos hpbn]
    exact hscrub.2
  have hcontrib : Rebuild.usedContribution env ((Rebuild.scrubPass env last page).1 slot) = 0 := by
    rw [hsp1]
    unfold Rebuild.usedContribution
    simp [isMappedLocation, Rebuild.unmappedEntry]
  have hnotinit : ¬ ¬ page.initialized = true := by simp [hinit]
  simp only [Rebuild.rebuildReferenceCountsFromPage, if_neg hnotinit]
  refine ⟨?_, ?_, ?_, hcontrib⟩
  · rcases accountFold_entry_preserved env slot (List.range env.entriesPerPage)
        ((Rebuild.scrubPass env last page).1, 0, (Rebuild.scrubPass env last page).2)
      with h | h
    · simpa [hsp1] using h
    · exact h
  · exact accountFold_writes_mono env slot (List.range env.entriesPerPage) _ hsp2
  · simpa using accountFold_sum env (List.range env.entriesPerPage)
      (List.nodup_range env.entriesPerPage)
      (Rebuild.scrubPass env last page).1 (Rebuild.scrubPass env last page).1 0
      (Rebuild.scrubPass env last page).2 (fun _ _ => rfl)

/-- Witness for C6 on a four-entry leaf whose entries are all mapped, with the
logical end at slot 2. -/
theorem claim_C6_witness :
    isMappedLocation ((⟨10, true, fun _ => ⟨7, 1⟩⟩ : Rebuild.LeafPage).entries 3) = true ∧
    (Rebuild.rebuildReferenceCountsFromPage ⟨4, fun _ => true, fun _ => true, fun _ => 0⟩
        ⟨2, 10⟩ ⟨10, true, fun _ => ⟨7, 1⟩⟩).entries 3 = Rebuild.unmappedEntry ∧
    3 ∈ (Rebuild.rebuildReferenceCountsFromPage ⟨4, fun _ => true, fun _ => true, fun _ => 0⟩
        ⟨2, 10⟩ ⟨10, true, fun _ => ⟨7, 1⟩⟩).writeSlots := by
  have h := claim_C6_rebuild_scrubs_tail ⟨4, fun _ => true, fun _ => true, fun _ => 0⟩
    ⟨2, 10⟩ ⟨10, true, fun _ => ⟨7, 1⟩⟩ 3 rfl rfl (by decide) (by decide) rfl
  exact ⟨rfl, h.1, h.2.1⟩

/-- Clearing the waiting flags of a list of pages changes only page state. -/
theorem clearWaiting_foldl_spec (l : List TreeZone.PageId) :
    ∀ s : TreeZone.ZoneState,
      (l.foldl (fun t p => TreeZone.setPage t p
          (fun pg => { pg with waiting := false })) s).trace = s.trace ∧
      (l.foldl (fun t p => TreeZone.setPage t p
          (fun pg => { pg with waiting := false })) s).flusher = s.flusher ∧
      (l.foldl (fun t p => TreeZone.setPage t p
          (fun pg => { pg with waiting := false })) s).generation = s.generation ∧
      (l.foldl (fun t p => TreeZone.setPage t p
          (fun pg => { pg with waiting := false })) s).oldestGeneration =
        s.oldestGeneration ∧
      (l.foldl (fun t p => TreeZone.setPage t p
          (fun pg => { pg with waiting := false })) s).poolFree = s.poolFree ∧
      (l.foldl (fun t p => TreeZone.setPage t p
          (fun pg => { pg with waiting := false })) s).poolWaiters = s.poolWaiters ∧
      (l.foldl (fun t p => TreeZone.setPage t p
          (fun pg => { pg with waiting := false })) s).dirtyPageCounts =
        s.dirtyPageCounts := by
  induction l with
  | nil => intro s; exact ⟨rfl, rfl, rfl, rfl, rfl, rfl, rfl⟩
  | cons a t ih =>
    intro s
    simpa using ih (TreeZone.setPage s a (fun pg => { pg with waiting := false }))

/-- Field effects of `enter_zone_read_only_mode`: the trace gains exactly the
read-only event, the flush-waiter queue is emptied, and all other zone fields
are untouched. -/
theorem enterZoneReadOnlyMode_spec (s : TreeZone.ZoneState) (code : Int) :
    (TreeZone.enterZoneReadOnlyMode s code).trace =
      s.trace ++ [TreeZone.Action.enteredReadOnly code] ∧
    (TreeZone.enterZoneReadOnlyMode s code).flushWaiters = [] ∧
    (TreeZone.enterZoneReadOnlyMode s code).flusher = s.flusher ∧
    (TreeZone.enterZoneReadOnlyMode s code).generation = s.generation ∧
    (TreeZone.enterZoneReadOnlyMode s code).oldestGeneration =
      s.oldestGeneration ∧
    (TreeZone.enterZoneReadOnlyMode s code).poolFree = s.poolFree ∧
    (TreeZone.enterZoneReadOnlyMode s code).poolWaiters = s.poolWaiters ∧
    (TreeZone.enterZoneReadOnlyMode s code).dirtyPageCounts =
      s.dirtyPageCounts := by
  unfold TreeZone.enterZoneReadOnlyMode
  have h := clearWaiting_foldl_spec s.flushWaiters
    { TreeZone.emit s (.enteredReadOnly code) with readOnly := true }
  exact ⟨h.1, rfl, h.2.1, h.2.2.1, h.2.2.2.1, h.2.2.2.2.1, h.2.2.2.2.2.1,
    h.2.2.2.2.2.2⟩

/-- C4 (amended): `enter_zone_read_only_mode` dequeues every member of
`flush_waiters` (the queue is empty afterwards) and itself issues no
metadata-write launch — the only event it adds to the trace is the read-only
notification.  Submit paths elsewhere in the tree zone do not consult
read-only state, so a later `launchWriteMetadataVIO` call can still be
issued; see the counterexample. -/
theorem claim_C4_read_only_drains_waiters (s : TreeZone.ZoneState) (code : Int) :
    (TreeZone.enterZoneReadOnlyMode s code).flushWaiters = [] ∧
    (TreeZone.enterZoneReadOnlyMode s code).trace =
      s.trace ++ [TreeZone.Action.enteredReadOnly code] :=
  ⟨(enterZoneReadOnlyMode_spec s code).2.1, (enterZoneReadOnlyMode_spec s code).1⟩

/-- C4 (counterexample): in a concrete zone where the expiry callback's
assertion fires on its first page — so `enter_zone_read_only_mode` runs —
the same batch still issues a `launchWriteMetadataVIO` call for its second
page afterwards, refuting "no subsequent launchWriteMetadataVIO call is
issued once enter_zone_read_only_mode has fired". -/
theorem claim_C4_counterexample :
    TreeZone.launchedWriteAfterReadOnly
      (TreeZone.writeDirtyPagesCallback 5 TreeZone.waitingPageZone [0, 1]).trace =
      true := by
  decide

/-- C3 (counterexample): with two idle pages expiring into a fresh zone, the
first page's enqueue makes it the flusher and advances the zone generation,
so the second page is stamped with generation 0 while the zone generation is
already 1 — refuting "stamped with the zone's current generation at the time
that page is processed". -/
theorem claim_C3_counterexample :
    TreeZone.stampsUseCurrentGeneration
      (TreeZone.writeDirtyPagesCallback 5 TreeZone.freshZone [0, 1]).trace =
      false := by
  decide

/-- Effects of a fresh (non-decrementing, non-overflowing) `set_generation`
stamp: the stamp event records the zone generation of the moment, only the
stamped page's generation field changes, the new generation's bucket is
incremented, and everything else is untouched. -/
theorem setGeneration_fresh_effects (s : TreeZone.ZoneState)
    (p : TreeZone.PageId) (g : Nat) (h : s.dirtyPageCounts g + 1 < 2 ^ 32) :
    (TreeZone.setGeneration s p g false).trace =
      s.trace ++ [TreeZone.Action.stamped p g s.generation] ∧
    (∀ q, q ≠ p → (TreeZone.setGeneration s p g false).pages q = s.pages q) ∧
    ((TreeZone.setGeneration s p g false).pages p).waiting = (s.pages p).waiting ∧
    ((TreeZone.setGeneration s p g false).pages p).writing = (s.pages p).writing ∧
    (TreeZone.setGeneration s p g false).generation = s.generation ∧
    (TreeZone.setGeneration s p g false).flusher = s.flusher ∧
    (TreeZone.setGeneration s p g false).poolFree = s.poolFree ∧
    (TreeZone.setGeneration s p g false).poolWaiters = s.poolWaiters ∧
    (TreeZone.setGeneration s p g false).flushWaiters = s.flushWaiters ∧
    ∀ i, (TreeZone.setGeneration s p g false).dirtyPageCounts i =
      if i = g then s.dirtyPageCounts i + 1 else s.dirtyPageCounts i := by
  have hmod : (s.dirtyPageCounts g + 1) % 2 ^ 32 = s.dirtyPageCounts g + 1 :=
    Nat.mod_eq_of_lt h
  have hnz : ¬ (s.dirtyPageCounts g + 1) % 2 ^ 32 = 0 := by omega
  unfold TreeZone.setGeneration
  simp only [false_and, if_false, TreeZone.setPage, TreeZone.emit, hnz,
    if_false]
  refine ⟨rfl, ?_, ?_, ?_, rfl, rfl, rfl, rfl, rfl, ?_⟩
  · intro q hq
    simp [hq]
  · simp
  · simp
  · intro i
    by_cases hi : i = g
    · subst hi
      simp [hmod]
      omega
    · simp [hi]

/-- The two possible outcomes of `attempt_increment`, with the state they
yield. -/
theorem attemptIncrement_cases (s : TreeZone.ZoneState) :
    (TreeZone.attemptIncrement s = (false, s) ∧
      s.oldestGeneration = (s.generation + 1) % 256) ∨
    (TreeZone.attemptIncrement s =
        (true, { s with generation := (s.generation + 1) % 256 }) ∧
      s.oldestGeneration ≠ (s.generation + 1) % 256) := by
  unfold TreeZone.attemptIncrement
  by_cases h : s.oldestGeneration = (s.generation + 1) % 256
  · exact Or.inl ⟨by simp [h], h⟩
  · exact Or.inr ⟨by simp [h], h⟩

/-- A `write_page` call for the page that is the current flusher goes
straight to the launch. -/
theorem writePage_flusher_launch (k : Nat) (t : TreeZone.ZoneState)
    (p : TreeZone.PageId) (e : TreeZone.EntryId) (hfl : t.flusher = some p) :
    ∃ flag,
      (TreeZone.runCall (k + 1) (.writePageCall p e) t).trace =
        t.trace ++ [TreeZone.Action.launchWrite p e flag] ∧
      (∀ q, q ≠ p →
        (TreeZone.runCall (k + 1) (.writePageCall p e) t).pages q = t.pages q) ∧
      (TreeZone.runCall (k + 1) (.writePageCall p e) t).dirtyPageCounts =
        t.dirtyPageCounts ∧
      (TreeZone.runCall (k + 1) (.writePageCall p e) t).flusher = t.flusher ∧
      (TreeZone.runCall (k + 1) (.writePageCall p e) t).generation =
        t.generation ∧
      (TreeZone.runCall (k + 1) (.writePageCall p e) t).oldestGeneration =
        t.oldestGeneration ∧
      (TreeZone.runCall (k + 1) (.writePageCall p e) t).poolFree = t.poolFree ∧
      (TreeZone.runCall (k + 1) (.writePageCall p e) t).poolWaiters =
        t.poolWaiters ∧
      (TreeZone.runCall (k + 1) (.writePageCall p e) t).flushWaiters =
        t.flushWaiters := by
  have hk : k + 1 = Nat.succ k := rfl
  rw [hk, TreeZone.runCall.eq_2, if_neg (by simp [hfl])]
  exact writePageLaunch_effects t p e

/-- Composition form of `writePage_flusher_launch` against an enqueue-shaped
trace. -/
theorem flusher_launch_tail (j : Nat) (t : TreeZone.ZoneState)
    (p : TreeZone.PageId) (e : TreeZone.EntryId) (hfl : t.flusher = some p)
    (base : List TreeZone.Action) (pg : TreeZone.PageId → TreeZone.TreePage)
    (dc : Nat → Nat)
    (htr : t.trace = base ++ [TreeZone.Action.enqueuedPage p])
    (hpg : t.pages = pg) (hdc : t.dirtyPageCounts = dc) :
    ∃ tail : List TreeZone.Action,
      (TreeZone.runCall (j + 1) (.writePageCall p e) t).trace =
        base ++ TreeZone.Action.enqueuedPage p :: tail ∧
      (∀ a ∈ tail, ∃ x flag, a = TreeZone.Action.launchWrite p x flag) ∧
      (∀ q, q ≠ p →
        (TreeZone.runCall (j + 1) (.writePageCall p e) t).pages q = pg q) ∧
      (TreeZone.runCall (j + 1) (.writePageCall p e) t).dirtyPageCounts = dc := by
  obtain ⟨flag, ht, hpages, hc, _⟩ := writePage_flusher_launch j t p e hfl
  refine ⟨[TreeZone.Action.launchWrite p e flag], ?_, ?_, ?_, ?_⟩
  · rw [ht, htr]; simp
  · intro a ha
    rcases List.mem_singleton.mp ha with rfl
    exact ⟨e, flag, rfl⟩
  · intro q hq
    rw [hpages q hq, hpg]
  · rw [hc, hdc]

/-- A bounded unfolding of `enqueue_page`: with at least three units of fuel
the call runs to completion, appending the enqueue event (followed possibly
by a single write launch of this page, when it becomes the flusher and a
pool entry is free), touching no other page and no dirty-page count. -/
theorem enqueuePage_effects (j : Nat) (s : TreeZone.ZoneState)
    (p : TreeZone.PageId) :
    ∃ tail : List TreeZone.Action,
      (TreeZone.enqueuePage (j + 3) s p).trace =
        s.trace ++ TreeZone.Action.enqueuedPage p :: tail ∧
      (∀ a ∈ tail, ∃ x flag, a = TreeZone.Action.launchWrite p x flag) ∧
      (∀ q, q ≠ p → (TreeZone.enqueuePage (j + 3) s p).pages q = s.pages q) ∧
      (TreeZone.enqueuePage (j + 3) s p).dirtyPageCounts = s.dirtyPageCounts := by
  have h3 : j + 3 = Nat.succ (j + 2) := rfl
  have h2 : j + 2 = Nat.succ (j + 1) := rfl
  unfold TreeZone.enqueuePage
  rw [h3, TreeZone.runCall.eq_3]
  split_ifs with hfl
  · rcases attemptIncrement_cases (TreeZone.emit s (.enqueuedPage p)) with
      ⟨hA, hcond⟩ | ⟨hA, hcond⟩
    · -- attempt_increment failed: queue on flush_waiters
      rw [hA]
      dsimp only
      refine ⟨[], ?_, ?_, ?_, ?_⟩
      · simp [TreeZone.enqueueFlushWaiter, TreeZone.setPage]
      · intro a ha; cases ha
      · intro q hq
        simp [TreeZone.enqueueFlushWaiter, TreeZone.setPage, hq]
      · simp [TreeZone.enqueueFlushWaiter, TreeZone.setPage]
    · -- attempt_increment succeeded: p becomes the flusher
      rw [hA]
      dsimp only
      rw [h2, TreeZone.runCall.eq_4]
      simp only [emit_flusher, emit_generation, emit_oldestGeneration,
        emit_dirtyPageCounts, emit_poolFree, emit_poolWaiters,
        emit_flushWaiters, emit_pages, emit_readOnly, emit_trace]
      cases hpf : s.poolFree with
      | nil =>
        refine ⟨[], ?_, ?_, ?_, ?_⟩
        · simp [TreeZone.enqueuePoolWaiter, TreeZone.setPage]
        · intro a ha; cases ha
        · intro q hq
          simp [TreeZone.enqueuePoolWaiter, TreeZone.setPage, hq]
        · simp [TreeZone.enqueuePoolWaiter, TreeZone.setPage]
      | cons e rest =>
        exact flusher_launch_tail j _ p e rfl s.trace s.pages s.dirtyPageCounts
          rfl rfl rfl
  · refine ⟨[], ?_, ?_, ?_, ?_⟩
    · simp [TreeZone.enqueueFlushWaiter, TreeZone.setPage]
    · intro a ha; cases ha
    · intro q hq
      simp [TreeZone.enqueueFlushWaiter, TreeZone.setPage, hq]
    · simp [TreeZone.enqueueFlushWaiter, TreeZone.setPage]

/-- The expiry loop over a batch of distinct non-waiting pages: each page is
stamped with the snapshotted generation; each page not already writing is
additionally enqueued; and every action added to the trace is a
snapshot-generation stamp, an enqueue event for a non-writing page of the
batch, or a write launch. -/
theorem expire_batch_spec (j : Nat) (gen0 : Nat) :
    ∀ (l : List TreeZone.PageId) (t : TreeZone.ZoneState),
      l.Nodup →
      (∀ p ∈ l, (t.pages p).waiting = false) →
      t.dirtyPageCounts gen0 + l.length < 2 ^ 32 →
      (∀ p ∈ l,
        (∃ z, TreeZone.Action.stamped p gen0 z ∈
          (l.foldl (TreeZone.expireOne (j + 3) gen0) t).trace) ∧
        ((t.pages p).writing = false →
          TreeZone.Action.enqueuedPage p ∈
            (l.foldl (TreeZone.expireOne (j + 3) gen0) t).trace)) ∧
      (∀ a ∈ (l.foldl (TreeZone.expireOne (j + 3) gen0) t).trace,
        a ∈ t.trace ∨ (∃ p z, a = TreeZone.Action.stamped p gen0 z) ∨
          (∃ p, p ∈ l ∧ (t.pages p).writing = false ∧
            a = TreeZone.Action.enqueuedPage p) ∨
          (∃ p x flag, a = TreeZone.Action.launchWrite p x flag)) ∧
      (∀ a ∈ t.trace, a ∈ (l.foldl (TreeZone.expireOne (j + 3) gen0) t).trace) := by
  intro l
  induction l with
  | nil =>
    intro t _ _ _
    refine ⟨?_, ?_, ?_⟩
    · intro p hp; cases hp
    · intro a ha; exact Or.inl ha
    · intro a ha; exact ha
  | cons a rest ih =>
    intro t hnd hflags hcount
    simp only [List.foldl_cons]
    have hw : (t.pages a).waiting = false := hflags a (List.mem_cons_self a rest)
    have hcb : t.dirtyPageCounts gen0 + 1 < 2 ^ 32 := by
      have h2 : t.dirtyPageCounts gen0 + (rest.length + 1) < 2 ^ 32 := by
        simpa [List.length_cons] using hcount
      omega
    have hsg := setGeneration_fresh_effects t a gen0 hcb
    have ht1 := hsg.1
    have hp1 := hsg.2.1
    have hwrite1 := hsg.2.2.2.1
    have hc1 := hsg.2.2.2.2.2.2.2.2.2
    cases hwr : (t.pages a).writing with
    | false =>
      -- the page is not being written: it is stamped and enqueued
      have hstep : TreeZone.expireOne (j + 3) gen0 t a =
          TreeZone.enqueuePage (j + 3) (TreeZone.setGeneration t a gen0 false) a := by
        unfold TreeZone.expireOne
        rw [if_neg (by simp [hw]), if_neg (by rw [hwrite1, hwr]; simp)]
      rw [hstep]
      obtain ⟨tail, ht2, htail, hpages2, hc2⟩ :=
        enqueuePage_effects j (TreeZone.setGeneration t a gen0 false) a
      have hpagesrest : ∀ p, p ≠ a →
          (TreeZone.enqueuePage (j + 3) (TreeZone.setGeneration t a gen0 false) a).pages p =
            t.pages p := by
        intro p hpa
        rw [hpages2 p hpa, hp1 p hpa]
      have hrestflags : ∀ p ∈ rest,
          ((TreeZone.enqueuePage (j + 3) (TreeZone.setGeneration t a gen0 false) a).pages p).waiting = false := by
        intro p hp
        have hpa : p ≠ a := by
          intro h; rw [h] at hp; exact (List.nodup_cons.mp hnd).1 hp
        rw [hpagesrest p hpa]
        exact hflags p (List.mem_cons_of_mem a hp)
      have hrestcount :
          (TreeZone.enqueuePage (j + 3) (TreeZone.setGeneration t a gen0 false) a).dirtyPageCounts gen0 +
            rest.length < 2 ^ 32 := by
        rw [hc2, hc1 gen0]
        have h2 : t.dirtyPageCounts gen0 + (rest.length + 1) < 2 ^ 32 := by
          simpa [List.length_cons] using hcount
        simp only [if_pos rfl, eq_self_iff_true, if_true]
        omega
      obtain ⟨hpos, hchar, hgrow⟩ :=
        ih (TreeZone.enqueuePage (j + 3) (TreeZone.setGeneration t a gen0 false) a)
          (List.nodup_cons.mp hnd).2 hrestflags hrestcount
      have ht2full :
          (TreeZone.enqueuePage (j + 3) (TreeZone.setGeneration t a gen0 false) a).trace =
            (t.trace ++ [TreeZone.Action.stamped a gen0 t.generation]) ++
              TreeZone.Action.enqueuedPage a :: tail := by
        rw [ht2, ht1]
      refine ⟨?_, ?_, ?_⟩
      · intro p hp
        rcases List.mem_cons.mp hp with rfl | hp
        · constructor
          · refine ⟨t.generation, hgrow _ ?_⟩
            rw [ht2full]; simp
          · intro _
            apply hgrow
            rw [ht2full]; simp
        · obtain ⟨hs, he⟩ := hpos p hp
          have hpa : p ≠ a := by
            intro h; rw [h] at hp; exact (List.nodup_cons.mp hnd).1 hp
          refine ⟨hs, ?_⟩
          intro hwp
          apply he
          rw [hpagesrest p hpa]
          exact hwp
      · intro x hx
        rcases hchar x hx with hx2 | hforms | hforms | hforms
        · rw [ht2full] at hx2
          simp only [List.mem_append, List.mem_cons, List.mem_singleton,
            List.not_mem_nil, or_false] at hx2
          rcases hx2 with (hx3 | hx3) | (hx3 | hx3)
          · exact Or.inl hx3
          · exact Or.inr (Or.inl ⟨a, t.generation, hx3⟩)
          · exact Or.inr (Or.inr (Or.inl
              ⟨a, List.mem_cons_self a rest, hwr, hx3⟩))
          · obtain ⟨x2, flag, hx4⟩ := htail x hx3
            exact Or.inr (Or.inr (Or.inr ⟨a, x2, flag, hx4⟩))
        · exact Or.inr (Or.inl hforms)
        · obtain ⟨p, hp, hwp, heq⟩ := hforms
          have hpa : p ≠ a := by
            intro h; rw [h] at hp; exact (List.nodup_cons.mp hnd).1 hp
          refine Or.inr (Or.inr (Or.inl
            ⟨p, List.mem_cons_of_mem a hp, ?_, heq⟩))
          rw [← hpagesrest p hpa]
          exact hwp
        · exact Or.inr (Or.inr (Or.inr hforms))
      · intro x hx
        apply hgrow
        rw [ht2full]
        simp [hx]
    | true =>
      -- the page is already being written: stamped with the snapshot, not
      -- enqueued (blockMapTree.c:584)
      have hstep : TreeZone.expireOne (j + 3) gen0 t a =
          TreeZone.setGeneration t a gen0 false := by
        unfold TreeZone.expireOne
        rw [if_neg (by simp [hw]), if_pos (by rw [hwrite1, hwr])]
      rw [hstep]
      have hrestflags : ∀ p ∈ rest,
          ((TreeZone.setGeneration t a gen0 false).pages p).waiting = false := by
        intro p hp
        have hpa : p ≠ a := by
          intro h; rw [h] at hp; exact (List.nodup_cons.mp hnd).1 hp
        rw [hp1 p hpa]
        exact hflags p (List.mem_cons_of_mem a hp)
      have hrestcount :
          (TreeZone.setGeneration t a gen0 false).dirtyPageCounts gen0 +
            rest.length < 2 ^ 32 := by
        rw [hc1 gen0]
        have h2 : t.dirtyPageCounts gen0 + (rest.length + 1) < 2 ^ 32 := by
          simpa [List.length_cons] using hcount
        simp only [if_pos rfl, eq_self_iff_true, if_true]
        omega
      obtain ⟨hpos, hchar, hgrow⟩ :=
        ih (TreeZone.setGeneration t a gen0 false)
          (List.nodup_cons.mp hnd).2 hrestflags hrestcount
      refine ⟨?_, ?_, ?_⟩
      · intro p hp
        rcases List.mem_cons.mp hp with rfl | hp
        · constructor
          · refine ⟨t.generation, hgrow _ ?_⟩
            rw [ht1]
            exact List.mem_append_right _ (List.mem_singleton.mpr rfl)
          · intro hwp
            rw [hwr] at hwp
            cases hwp
        · obtain ⟨hs, he⟩ := hpos p hp
          have hpa : p ≠ a := by
            intro h; rw [h] at hp; exact (List.nodup_cons.mp hnd).1 hp
          refine ⟨hs, ?_⟩
          intro hwp
          apply he
          rw [hp1 p hpa]
          exact hwp
      · intro x hx
        rcases hchar x hx with hx2 | hforms | hforms | hforms
        · rw [ht1] at hx2
          rcases List.mem_append.mp hx2 with hx3 | hx3
          · exact Or.inl hx3
          · rcases List.mem_singleton.mp hx3 with rfl
            exact Or.inr (Or.inl ⟨a, t.generation, rfl⟩)
        · exact Or.inr (Or.inl hforms)
        · obtain ⟨p, hp, hwp, heq⟩ := hforms
          have hpa : p ≠ a := by
            intro h; rw [h] at hp; exact (List.nodup_cons.mp hnd).1 hp
          refine Or.inr (Or.inr (Or.inl
            ⟨p, List.mem_cons_of_mem a hp, ?_, heq⟩))
          rw [← hp1 p hpa]
          exact hwp
        · exact Or.inr (Or.inr (Or.inr hforms))
      · intro x hx
        apply hgrow
        rw [ht1]
        exact List.mem_append_left _ hx

/-- C3 (amended): when the dirty-lists expiry callback delivers a batch of
distinct expired pages (none already waiting — the asserted invariant whose
violation is the read-only error path), every page of the batch is stamped
with the zone generation captured once at callback entry — incrementing the
dirty-page bucket of that snapshot generation — even though the zone
generation may advance mid-batch when an earlier page of the batch becomes
the flusher; and each page not already writing is enqueued via
`enqueue_page`, while a page already being written is stamped but not
enqueued. -/
theorem claim_C3_snapshot_generation (fuel : Nat) (s : TreeZone.ZoneState)
    (expired : List TreeZone.PageId)
    (hfuel : 3 ≤ fuel) (htrace : s.trace = [])
    (hnodup : expired.Nodup)
    (hflags : ∀ p ∈ expired, (s.pages p).waiting = false)
    (hcount : s.dirtyPageCounts s.generation + expired.length < 2 ^ 32) :
    (∀ p ∈ expired,
      (∃ z, TreeZone.Action.stamped p s.generation z ∈
        (TreeZone.writeDirtyPagesCallback fuel s expired).trace) ∧
      ((s.pages p).writing = false →
        TreeZone.Action.enqueuedPage p ∈
          (TreeZone.writeDirtyPagesCallback fuel s expired).trace) ∧
      ((s.pages p).writing = true →
        TreeZone.Action.enqueuedPage p ∉
          (TreeZone.writeDirtyPagesCallback fuel s expired).trace)) ∧
    ∀ p g z,
      TreeZone.Action.stamped p g z ∈
        (TreeZone.writeDirtyPagesCallback fuel s expired).trace →
      g = s.generation := by
  obtain ⟨j, rfl⟩ : ∃ j, fuel = j + 3 := ⟨fuel - 3, by omega⟩
  unfold TreeZone.writeDirtyPagesCallback
  obtain ⟨hpos, hchar, _⟩ :=
    expire_batch_spec j s.generation expired s hnodup hflags hcount
  refine ⟨?_, ?_⟩
  · intro p hp
    obtain ⟨hs, he⟩ := hpos p hp
    refine ⟨hs, he, ?_⟩
    intro hwp hmem
    rcases hchar _ hmem with h | h | h | h
    · rw [htrace] at h; cases h
    · obtain ⟨p2, z2, h⟩ := h
      cases h
    · obtain ⟨q, hq, hwq, heq⟩ := h
      injection heq with h1
      rw [h1] at hwp
      rw [hwp] at hwq
      cases hwq
    · obtain ⟨p2, x2, flag, h⟩ := h
      cases h
  · intro p g z hmem
    rcases hchar _ hmem with h | h | h | h
    · rw [htrace] at h; cases h
    · obtain ⟨p2, z2, h⟩ := h
      injection h with h1 h2 h3
    · obtain ⟨q, hq, hwq, h⟩ := h
      cases h
    · obtain ⟨p2, x2, flag, h⟩ := h
      cases h

/-- NotifyOut is reflexive on invariant states. -/
theorem notifyOut_refl {P : TreeZone.PageId} {e : TreeZone.EntryId} {g o : Nat}
    {s : TreeZone.ZoneState} (h : TreeZone.NotifyInv P e g o s) :
    TreeZone.NotifyOut P e g o s s :=
  ⟨h, fun a ha => Or.inl ha, fun _ ha => ha⟩

/-- NotifyOut composes. -/
theorem notifyOut_trans {P : TreeZone.PageId} {e : TreeZone.EntryId} {g o : Nat}
    {s t u : TreeZone.ZoneState}
    (h1 : TreeZone.NotifyOut P e g o s t)
    (h2 : TreeZone.NotifyOut P e g o t u) :
    TreeZone.NotifyOut P e g o s u := by
  refine ⟨h2.1, ?_, ?_⟩
  · intro a ha
    rcases h2.2.1 a ha with h | h
    · exact h1.2.1 a h
    · exact Or.inr h
  · intro a ha
    exact h2.2.2 a (h1.2.2 a ha)

/-- Emitting a benign action preserves the notify invariant. -/
theorem notifyOut_emit {P : TreeZone.PageId} {e : TreeZone.EntryId} {g o : Nat}
    {s : TreeZone.ZoneState} (h : TreeZone.NotifyInv P e g o s)
    (a : TreeZone.Action) (hb : TreeZone.notifyBenign P e a) :
    TreeZone.NotifyOut P e g o s (TreeZone.emit s a) := by
  refine ⟨h, ?_, ?_⟩
  · intro x hx
    rcases List.mem_append.mp hx with hx | hx
    · exact Or.inl hx
    · rcases List.mem_singleton.mp hx with rfl
      exact Or.inr hb
  · intro x hx
    exact List.mem_append_left _ hx

/-- Entering read-only mode during the notification cascade preserves the
invariant (the flush-waiter queue is emptied, so the flusher is certainly
not on it). -/
theorem notifyOut_enterReadOnly {P : TreeZone.PageId} {e : TreeZone.EntryId}
    {g o : Nat} {s : TreeZone.ZoneState} (h : TreeZone.NotifyInv P e g o s)
    (c : Int) :
    TreeZone.NotifyOut P e g o s (TreeZone.enterZoneReadOnlyMode s c) := by
  obtain ⟨ht, hfw, hfl, hg, ho2, hpf, hpw, _⟩ := enterZoneReadOnlyMode_spec s c
  refine ⟨⟨?_, ?_, ?_, ?_, ?_, ?_⟩, ?_, ?_⟩
  · rw [hfl]; exact h.1
  · rw [hg]; exact h.2.1
  · rw [ho2]; exact h.2.2.1
  · rw [hpf]; exact h.2.2.2.1
  · rw [hpw]; exact h.2.2.2.2.1
  · rw [hfw]; exact List.not_mem_nil P
  · intro a ha
    rw [ht] at ha
    rcases List.mem_append.mp ha with hx | hx
    · exact Or.inl hx
    · rcases List.mem_singleton.mp hx with rfl
      exact Or.inr trivial
  · intro a ha
    rw [ht]
    exact List.mem_append_left _ ha

/-- Queueing a non-flusher page on `flush_waiters` preserves the invariant. -/
theorem notifyOut_enqueueFlushWaiter {P : TreeZone.PageId} {e : TreeZone.EntryId}
    {g o : Nat} {s : TreeZone.ZoneState} (h : TreeZone.NotifyInv P e g o s)
    {p : TreeZone.PageId} (hp : p ≠ P) :
    TreeZone.NotifyOut P e g o s (TreeZone.enqueueFlushWaiter s p) := by
  obtain ⟨ht, _, hc, hfl, hg, ho2, hpf, hpw, hfw⟩ := enqueueFlushWaiter_effects s p
  refine ⟨⟨?_, ?_, ?_, ?_, ?_, ?_⟩, ?_, ?_⟩
  · rw [hfl]; exact h.1
  · rw [hg]; exact h.2.1
  · rw [ho2]; exact h.2.2.1
  · rw [hpf]; exact h.2.2.2.1
  · rw [hpw]; exact h.2.2.2.2.1
  · rw [hfw]
    intro hcon
    rcases List.mem_append.mp hcon with hx | hx
    · exact h.2.2.2.2.2 hx
    · exact hp (List.mem_singleton.mp hx).symm
  · intro a ha
    rw [ht] at ha
    exact Or.inl ha
  · intro a ha
    rw [ht]
    exact ha

/-- Queueing a non-flusher page on the pool's waiter queue preserves the
invariant. -/
theorem notifyOut_enqueuePoolWaiter {P : TreeZone.PageId} {e : TreeZone.EntryId}
    {g o : Nat} {s : TreeZone.ZoneState} (h : TreeZone.NotifyInv P e g o s)
    {p : TreeZone.PageId} (hp : p ≠ P) :
    TreeZone.NotifyOut P e g o s (TreeZone.enqueuePoolWaiter s p) := by
  obtain ⟨ht, _, hc, hfl, hg, ho2, hpf, hpw, hfw⟩ := enqueuePoolWaiter_effects s p
  refine ⟨⟨?_, ?_, ?_, ?_, ?_, ?_⟩, ?_, ?_⟩
  · rw [hfl]; exact h.1
  · rw [hg]; exact h.2.1
  · rw [ho2]; exact h.2.2.1
  · rw [hpf]; exact h.2.2.2.1
  · rw [hpw]
    intro hcon
    rcases List.mem_append.mp hcon with hx | hx
    · exact h.2.2.2.2.1 hx
    · exact hp (List.mem_singleton.mp hx).symm
  · rw [hfw]; exact h.2.2.2.2.2
  · intro a ha
    rw [ht] at ha
    exact Or.inl ha
  · intro a ha
    rw [ht]
    exact ha

/-- Launching a write for a non-flusher page preserves the invariant. -/
theorem notifyOut_writePageLaunch {P : TreeZone.PageId} {e : TreeZone.EntryId}
    {g o : Nat} {s : TreeZone.ZoneState} (h : TreeZone.NotifyInv P e g o s)
    {p : TreeZone.PageId} (hp : p ≠ P) (x : TreeZone.EntryId) :
    TreeZone.NotifyOut P e g o s (TreeZone.writePageLaunch s p x) := by
  obtain ⟨flag, ht, _, hc, hfl, hg, ho2, hpf, hpw, hfw⟩ :=
    writePageLaunch_effects s p x
  refine ⟨⟨?_, ?_, ?_, ?_, ?_, ?_⟩, ?_, ?_⟩
  · rw [hfl]; exact h.1
  · rw [hg]; exact h.2.1
  · rw [ho2]; exact h.2.2.1
  · rw [hpf]; exact h.2.2.2.1
  · rw [hpw]; exact h.2.2.2.2.1
  · rw [hfw]; exact h.2.2.2.2.2
  · intro a ha
    rw [ht] at ha
    rcases List.mem_append.mp ha with hx | hx
    · exact Or.inl hx
    · rcases List.mem_singleton.mp hx with rfl
      exact Or.inr hp
  · intro a ha
    rw [ht]
    exact List.mem_append_left _ ha

/-- The state returned by `is_not_older` is either unchanged or the read-only
state. -/
theorem isNotOlder_snd (s : TreeZone.ZoneState) (a b : Nat) :
    (TreeZone.isNotOlder s a b).2 = s ∨
    (TreeZone.isNotOlder s a b).2 =
      TreeZone.enterZoneReadOnlyMode s UDS_ASSERTION_FAILED := by
  unfold TreeZone.isNotOlder
  split
  · exact Or.inl rfl
  · exact Or.inr rfl

/-- Every call of the flush pipeline on a page other than the flusher `P`,
with an entry other than the one `finish_page_write` holds, preserves the
notification invariant and emits only benign actions. -/
theorem runCall_notify_inv (P : TreeZone.PageId) (e : TreeZone.EntryId)
    (g o : Nat) :
    ∀ fuel : Nat,
      (∀ s p x, TreeZone.NotifyInv P e g o s → p ≠ P → x ≠ e →
        TreeZone.NotifyOut P e g o s
          (TreeZone.runCall fuel (.writePageCall p x) s)) ∧
      (∀ s p, TreeZone.NotifyInv P e g o s → p ≠ P →
        TreeZone.NotifyOut P e g o s
          (TreeZone.runCall fuel (.enqueuePageCall p) s)) ∧
      (∀ s p, TreeZone.NotifyInv P e g o s → p ≠ P →
        TreeZone.NotifyOut P e g o s
          (TreeZone.runCall fuel (.acquireVioCall p) s)) ∧
      (∀ s x, TreeZone.NotifyInv P e g o s → x ≠ e →
        TreeZone.NotifyOut P e g o s
          (TreeZone.runCall fuel (.returnToPoolCall x) s)) := by
  intro fuel
  induction fuel with
  | zero =>
    refine ⟨?_, ?_, ?_, ?_⟩
    · intro s p x hInv _ _
      exact notifyOut_emit hInv _ True.intro
    · intro s p hInv _
      exact notifyOut_emit hInv _ True.intro
    · intro s p hInv _
      exact notifyOut_emit hInv _ True.intro
    · intro s x hInv _
      exact notifyOut_emit hInv _ True.intro
  | succ n ih =>
    obtain ⟨ihW, ihE, ihA, ihR⟩ := ih
    refine ⟨?_, ?_, ?_, ?_⟩
    · -- write_page
      intro s p x hInv hp hx
      rw [TreeZone.runCall.eq_2,
        if_pos (by rw [hInv.1]; exact fun hcon => hp (Option.some.inj hcon).symm)]
      rcases hno : TreeZone.isNotOlder s (s.pages p).generation s.generation with
        ⟨b, s1⟩
      have hs1 : s1 = s ∨
          s1 = TreeZone.enterZoneReadOnlyMode s UDS_ASSERTION_FAILED := by
        have h2 := isNotOlder_snd s (s.pages p).generation s.generation
        rw [hno] at h2
        exact h2
      have hout1 : TreeZone.NotifyOut P e g o s s1 := by
        rcases hs1 with rfl | rfl
        · exact notifyOut_refl hInv
        · exact notifyOut_enterReadOnly hInv _
      cases b
      · exact notifyOut_trans hout1 (notifyOut_writePageLaunch hout1.1 hp x)
      · have h2 := ihE s1 p hout1.1 hp
        exact notifyOut_trans hout1 (notifyOut_trans h2 (ihR _ x h2.1 hx))
    · -- enqueue_page
      intro s p hInv hp
      rw [TreeZone.runCall.eq_3, if_neg (by simp [hInv.1])]
      have h1 := notifyOut_emit hInv (.enqueuedPage p) True.intro
      exact notifyOut_trans h1 (notifyOut_enqueueFlushWaiter h1.1 hp)
    · -- acquire_vio
      intro s p hInv hp
      rw [TreeZone.runCall.eq_4]
      cases hpf2 : s.poolFree with
      | nil => exact notifyOut_enqueuePoolWaiter hInv hp
      | cons x2 rest =>
        have hxe : x2 ≠ e := by
          intro hcon
          apply hInv.2.2.2.1
          rw [hpf2, hcon]
          exact List.mem_cons_self e rest
        have hInv2 : TreeZone.NotifyInv P e g o { s with poolFree := rest } := by
          refine ⟨hInv.1, hInv.2.1, hInv.2.2.1, ?_, hInv.2.2.2.2.1,
            hInv.2.2.2.2.2⟩
          intro hcon
          apply hInv.2.2.2.1
          rw [hpf2]
          exact List.mem_cons_of_mem x2 hcon
        have hmid : TreeZone.NotifyOut P e g o s { s with poolFree := rest } :=
          ⟨hInv2, fun a ha => Or.inl ha, fun a ha => ha⟩
        exact notifyOut_trans hmid (ihW _ p x2 hInv2 hp hxe)
    · -- return_to_pool
      intro s x hInv hx
      rw [TreeZone.runCall.eq_5]
      simp only [emit_poolWaiters]
      have hemit := notifyOut_emit hInv (.returnedToPool x) hx
      cases hpw2 : s.poolWaiters with
      | nil =>
        dsimp only
        refine notifyOut_trans hemit ⟨⟨hemit.1.1, hemit.1.2.1, hemit.1.2.2.1, ?_,
          List.not_mem_nil P, hemit.1.2.2.2.2.2⟩, fun a ha => Or.inl ha,
          fun a ha => ha⟩
        intro hcon
        rcases List.mem_append.mp hcon with hcc | hcc
        · exact hemit.1.2.2.2.1 hcc
        · exact hx (List.mem_singleton.mp hcc).symm
      | cons q rest =>
        dsimp only
        have hq : q ≠ P := by
          intro hcon
          apply hInv.2.2.2.2.1
          rw [hpw2, hcon]
          exact List.mem_cons_self P rest
        have hInv2 : TreeZone.NotifyInv P e g o
            { TreeZone.setPage (TreeZone.emit s (.returnedToPool x)) q
                (fun pg => { pg with waiting := false }) with
              poolWaiters := rest } := by
          refine ⟨hemit.1.1, hemit.1.2.1, hemit.1.2.2.1, hemit.1.2.2.2.1, ?_,
            hemit.1.2.2.2.2.2⟩
          intro hcon
          apply hInv.2.2.2.2.1
          rw [hpw2]
          exact List.mem_cons_of_mem q hcon
        have hmid : TreeZone.NotifyOut P e g o s
            { TreeZone.setPage (TreeZone.emit s (.returnedToPool x)) q
                (fun pg => { pg with waiting := false }) with
              poolWaiters := rest } :=
          notifyOut_trans hemit ⟨hInv2, fun a ha => Or.inl ha, fun a ha => ha⟩
        exact notifyOut_trans hmid (ihW _ q x hInv2 hq hx)

/-- The notify loop of `finish_page_write`: starting from an invariant state
and a snapshot of flush waiters not containing the flusher, the loop
preserves the invariant, appends exactly one notification per waiter (with
the context generation) plus benign actions, preserves the existing trace,
and (completeness) notifies every member of the snapshot. -/
theorem notifyWaiters_spec (P : TreeZone.PageId) (e : TreeZone.EntryId)
    (g o : Nat) (ctx : Nat) (fuel : Nat) :
    ∀ (ws : List TreeZone.PageId) (s : TreeZone.ZoneState),
      TreeZone.NotifyInv P e g o s → P ∉ ws →
      TreeZone.NotifyInv P e g o (TreeZone.notifyFlushWaiters fuel s ctx ws) ∧
      (∀ a ∈ (TreeZone.notifyFlushWaiters fuel s ctx ws).trace,
        a ∈ s.trace ∨ (∃ w ∈ ws, a = TreeZone.Action.notified w ctx) ∨
          TreeZone.notifyBenign P e a) ∧
      (∀ a ∈ s.trace, a ∈ (TreeZone.notifyFlushWaiters fuel s ctx ws).trace) ∧
      (∀ w ∈ ws, TreeZone.Action.notified w ctx ∈
        (TreeZone.notifyFlushWaiters fuel s ctx ws).trace) := by
  intro ws
  induction ws with
  | nil =>
    intro s h _
    exact ⟨h, fun a ha => Or.inl ha, fun a ha => ha, by intro w hw; cases hw⟩
  | cons w rest ih =>
    intro s hInv hP
    have hwP : w ≠ P := by
      intro hcon
      apply hP
      rw [← hcon]
      exact List.mem_cons_self w rest
    simp only [TreeZone.notifyFlushWaiters]
    have h2 : TreeZone.NotifyInv P e g o
        (TreeZone.setPage (TreeZone.emit s (.notified w ctx)) w
          (fun pg => { pg with waiting := false })) := hInv
    have hout3 : TreeZone.NotifyOut P e g o
        (TreeZone.setPage (TreeZone.emit s (.notified w ctx)) w
          (fun pg => { pg with waiting := false }))
        (TreeZone.writePageIfNotDirtied fuel
          (TreeZone.setPage (TreeZone.emit s (.notified w ctx)) w
            (fun pg => { pg with waiting := false })) w ctx) := by
      unfold TreeZone.writePageIfNotDirtied TreeZone.acquireVio
        TreeZone.enqueuePage
      split_ifs with hgen
      · exact (runCall_notify_inv P e g o fuel).2.2.1 _ w h2 hwP
      · exact (runCall_notify_inv P e g o fuel).2.1 _ w h2 hwP
    obtain ⟨ih1, ih2, ih3, ih4⟩ := ih _ hout3.1
      (fun hcon => hP (List.mem_cons_of_mem w hcon))
    refine ⟨ih1, ?_, ?_, ?_⟩
    · intro a ha
      rcases ih2 a ha with h | h | h
      · rcases hout3.2.1 a h with hb | hb
        · have hb2 : a ∈ s.trace ++ [TreeZone.Action.notified w ctx] := hb
          rcases List.mem_append.mp hb2 with hc | hc
          · exact Or.inl hc
          · rcases List.mem_singleton.mp hc with rfl
            exact Or.inr (Or.inl ⟨w, List.mem_cons_self w rest, rfl⟩)
        · exact Or.inr (Or.inr hb)
      · obtain ⟨w2, hw2, ha2⟩ := h
        exact Or.inr (Or.inl ⟨w2, List.mem_cons_of_mem _ hw2, ha2⟩)
      · exact Or.inr (Or.inr h)
    · intro a ha
      apply ih3
      apply hout3.2.2
      show a ∈ s.trace ++ [TreeZone.Action.notified w ctx]
      exact List.mem_append_left _ ha
    · intro w2 hw2
      rcases List.mem_cons.mp hw2 with rfl | hw2
      · apply ih3
        apply hout3.2.2
        show TreeZone.Action.notified w2 ctx ∈
          s.trace ++ [TreeZone.Action.notified w2 ctx]
        exact List.mem_append_right _ (List.mem_singleton.mpr rfl)
      · exact ih4 w2 hw2

/-- ContOut is reflexive on invariant states. -/
theorem contOut_refl {P : TreeZone.PageId} {s : TreeZone.ZoneState}
    (h : TreeZone.ContInv P s) : TreeZone.ContOut P s s :=
  ⟨h, fun a ha => Or.inl ha, fun _ ha => ha⟩

/-- ContOut composes. -/
theorem contOut_trans {P : TreeZone.PageId} {s t u : TreeZone.ZoneState}
    (h1 : TreeZone.ContOut P s t) (h2 : TreeZone.ContOut P t u) :
    TreeZone.ContOut P s u := by
  refine ⟨h2.1, ?_, ?_⟩
  · intro a ha
    rcases h2.2.1 a ha with h | h
    · exact h1.2.1 a h
    · exact Or.inr h
  · intro a ha
    exact h2.2.2 a (h1.2.2 a ha)

/-- Emitting a benign action preserves the continuation invariant. -/
theorem contOut_emit {P : TreeZone.PageId} {s : TreeZone.ZoneState}
    (h : TreeZone.ContInv P s) (a : TreeZone.Action)
    (hb : TreeZone.contBenign P a) :
    TreeZone.ContOut P s (TreeZone.emit s a) := by
  refine ⟨h, ?_, ?_⟩
  · intro x hx
    rcases List.mem_append.mp hx with hx | hx
    · exact Or.inl hx
    · rcases List.mem_singleton.mp hx with rfl
      exact Or.inr hb
  · intro x hx
    exact List.mem_append_left _ hx

/-- Entering read-only mode preserves the continuation invariant. -/
theorem contOut_enterReadOnly {P : TreeZone.PageId} {s : TreeZone.ZoneState}
    (h : TreeZone.ContInv P s) (c : Int) :
    TreeZone.ContOut P s (TreeZone.enterZoneReadOnlyMode s c) := by
  obtain ⟨ht, _, hfl, _, _, _, hpw, _⟩ := enterZoneReadOnlyMode_spec s c
  refine ⟨⟨?_, ?_⟩, ?_, ?_⟩
  · rw [hfl]; exact h.1
  · rw [hpw]; exact h.2
  · intro a ha
    rw [ht] at ha
    rcases List.mem_append.mp ha with hx | hx
    · exact Or.inl hx
    · rcases List.mem_singleton.mp hx with rfl
      exact Or.inr trivial
  · intro a ha
    rw [ht]
    exact List.mem_append_left _ ha

/-- Queueing any page on `flush_waiters` preserves the continuation
invariant. -/
theorem contOut_enqueueFlushWaiter {P : TreeZone.PageId}
    {s : TreeZone.ZoneState} (h : TreeZone.ContInv P s) (p : TreeZone.PageId) :
    TreeZone.ContOut P s (TreeZone.enqueueFlushWaiter s p) := by
  obtain ⟨ht, _, _, hfl, _, _, _, hpw, _⟩ := enqueueFlushWaiter_effects s p
  refine ⟨⟨?_, ?_⟩, ?_, ?_⟩
  · rw [hfl]; exact h.1
  · rw [hpw]; exact h.2
  · intro a ha
    rw [ht] at ha
    exact Or.inl ha
  · intro a ha
    rw [ht]
    exact ha

/-- Queueing a page other than `P` on the pool's waiter queue preserves the
continuation invariant. -/
theorem contOut_enqueuePoolWaiter {P : TreeZone.PageId}
    {s : TreeZone.ZoneState} (h : TreeZone.ContInv P s)
    {p : TreeZone.PageId} (hp : p ≠ P) :
    TreeZone.ContOut P s (TreeZone.enqueuePoolWaiter s p) := by
  obtain ⟨ht, _, _, hfl, _, _, _, hpw, _⟩ := enqueuePoolWaiter_effects s p
  refine ⟨⟨?_, ?_⟩, ?_, ?_⟩
  · rw [hfl]; exact h.1
  · rw [hpw]
    intro hcon
    rcases List.mem_append.mp hcon with hx | hx
    · exact h.2 hx
    · exact hp (List.mem_singleton.mp hx).symm
  · intro a ha
    rw [ht] at ha
    exact Or.inl ha
  · intro a ha
    rw [ht]
    exact ha

/-- Launching a write for a page other than `P` preserves the continuation
invariant. -/
theorem contOut_writePageLaunch {P : TreeZone.PageId} {s : TreeZone.ZoneState}
    (h : TreeZone.ContInv P s) {p : TreeZone.PageId} (hp : p ≠ P)
    (x : TreeZone.EntryId) :
    TreeZone.ContOut P s (TreeZone.writePageLaunch s p x) := by
  obtain ⟨flag, ht, _, _, hfl, _, _, _, hpw, _⟩ := writePageLaunch_effects s p x
  refine ⟨⟨?_, ?_⟩, ?_, ?_⟩
  · rw [hfl]; exact h.1
  · rw [hpw]; exact h.2
  · intro a ha
    rw [ht] at ha
    rcases List.mem_append.mp ha with hx | hx
    · exact Or.inl hx
    · rcases List.mem_singleton.mp hx with rfl
      exact Or.inr hp
  · intro a ha
    rw [ht]
    exact List.mem_append_left _ ha

/-- Every call of the flush pipeline on a page other than `P`, once `P` has
given up its flusher role, keeps `P` off the flusher slot and the pool's
waiter queue and emits no notification, stamp, or write launch for `P`. -/
theorem runCall_cont_inv (P : TreeZone.PageId) :
    ∀ fuel : Nat,
      (∀ s p x, TreeZone.ContInv P s → p ≠ P →
        TreeZone.ContOut P s (TreeZone.runCall fuel (.writePageCall p x) s)) ∧
      (∀ s p, TreeZone.ContInv P s → p ≠ P →
        TreeZone.ContOut P s (TreeZone.runCall fuel (.enqueuePageCall p) s)) ∧
      (∀ s p, TreeZone.ContInv P s → p ≠ P →
        TreeZone.ContOut P s (TreeZone.runCall fuel (.acquireVioCall p) s)) ∧
      (∀ s x, TreeZone.ContInv P s →
        TreeZone.ContOut P s (TreeZone.runCall fuel (.returnToPoolCall x) s)) := by
  intro fuel
  induction fuel with
  | zero =>
    refine ⟨?_, ?_, ?_, ?_⟩
    · intro s p x hInv _
      exact contOut_emit hInv _ True.intro
    · intro s p hInv _
      exact contOut_emit hInv _ True.intro
    · intro s p hInv _
      exact contOut_emit hInv _ True.intro
    · intro s x hInv
      exact contOut_emit hInv _ True.intro
  | succ n ih =>
    obtain ⟨ihW, ihE, ihA, ihR⟩ := ih
    refine ⟨?_, ?_, ?_, ?_⟩
    · -- write_page
      intro s p x hInv hp
      rw [TreeZone.runCall.eq_2]
      split_ifs with hcond
      · rcases hno : TreeZone.isNotOlder s (s.pages p).generation s.generation
          with ⟨b, s1⟩
        have hs1 : s1 = s ∨
            s1 = TreeZone.enterZoneReadOnlyMode s UDS_ASSERTION_FAILED := by
          have h2 := isNotOlder_snd s (s.pages p).generation s.generation
          rw [hno] at h2
          exact h2
        have hout1 : TreeZone.ContOut P s s1 := by
          rcases hs1 with rfl | rfl
          · exact contOut_refl hInv
          · exact contOut_enterReadOnly hInv _
        cases b
        · exact contOut_trans hout1 (contOut_writePageLaunch hout1.1 hp x)
        · have h2 := ihE s1 p hout1.1 hp
          exact contOut_trans hout1 (contOut_trans h2 (ihR _ x h2.1))
      · exact contOut_writePageLaunch hInv hp x
    · -- enqueue_page
      intro s p hInv hp
      rw [TreeZone.runCall.eq_3]
      have hem := contOut_emit hInv (.enqueuedPage p) True.intro
      split_ifs with hfn
      · rcases attemptIncrement_cases (TreeZone.emit s (.enqueuedPage p)) with
          ⟨hA, _⟩ | ⟨hA, _⟩
        · rw [hA]
          dsimp only
          exact contOut_trans hem (contOut_enqueueFlushWaiter hem.1 p)
        · rw [hA]
          dsimp only
          have hmidT : TreeZone.ContOut P s
              { { TreeZone.emit s (.enqueuedPage p) with
                    generation :=
                      ((TreeZone.emit s (.enqueuedPage p)).generation + 1) %
                        256 } with
                flusher := some p } := by
            refine contOut_trans hem
              ⟨⟨?_, ?_⟩, fun a ha => Or.inl ha, fun a ha => ha⟩
            · intro hcon
              exact hp (Option.some.inj hcon)
            · exact hem.1.2
          exact contOut_trans hmidT (ihA _ p hmidT.1 hp)
      · exact contOut_trans hem (contOut_enqueueFlushWaiter hem.1 p)
    · -- acquire_vio
      intro s p hInv hp
      rw [TreeZone.runCall.eq_4]
      cases hpf2 : s.poolFree with
      | nil => exact contOut_enqueuePoolWaiter hInv hp
      | cons x2 rest =>
        dsimp only
        exact contOut_trans
          ⟨hInv, fun a ha => Or.inl ha, fun a ha => ha⟩
          (ihW _ p x2 hInv hp)
    · -- return_to_pool
      intro s x hInv
      rw [TreeZone.runCall.eq_5]
      simp only [emit_poolWaiters]
      have hem := contOut_emit hInv (.returnedToPool x) True.intro
      cases hpw2 : s.poolWaiters with
      | nil =>
        dsimp only
        exact contOut_trans hem
          ⟨⟨hem.1.1, List.not_mem_nil P⟩, fun a ha => Or.inl ha,
            fun a ha => ha⟩
      | cons q rest =>
        dsimp only
        have hq : q ≠ P := by
          intro hcon
          apply hInv.2
          rw [hpw2, hcon]
          exact List.mem_cons_self P rest
        have hInv2 : TreeZone.ContInv P
            { TreeZone.setPage (TreeZone.emit s (.returnedToPool x)) q
                (fun pg => { pg with waiting := false }) with
              poolWaiters := rest } := by
          refine ⟨hem.1.1, ?_⟩
          intro hcon
          apply hInv.2
          rw [hpw2]
          exact List.mem_cons_of_mem q hcon
        exact contOut_trans
          (contOut_trans hem
            ⟨hInv2, fun a ha => Or.inl ha, fun a ha => ha⟩)
          (ihW _ q x hInv2 hq)

/-- The continuation of `finish_page_write` after the flusher slot has been
cleared: when `attempt_increment` cannot succeed in the re-dirtied case, the
completed page is put back on `flush_waiters` (never re-launched), the vio
cascades only to non-`P` pages, and `P` never becomes the flusher again. -/
theorem finishContinuation_spec (P : TreeZone.PageId) (fuel : Nat)
    (s : TreeZone.ZoneState) (e : TreeZone.EntryId) (dirty : Bool)
    (hfl : s.flusher = none) (hpw : P ∉ s.poolWaiters)
    (hwq : P ∉ s.flushWaiters)
    (hfail : dirty = true → s.oldestGeneration = (s.generation + 1) % 256) :
    TreeZone.ContOut P s (TreeZone.finishContinuation fuel s P e dirty) := by
  have hInv : TreeZone.ContInv P s := by
    refine ⟨?_, hpw⟩
    rw [hfl]
    exact fun hcon => Option.noConfusion hcon
  unfold TreeZone.finishContinuation
  cases dirty with
  | true =>
    rw [if_pos rfl]
    have hd : TreeZone.ContOut P s (TreeZone.enqueuePage fuel s P) := by
      unfold TreeZone.enqueuePage
      cases fuel with
      | zero => exact contOut_emit hInv _ True.intro
      | succ k =>
        rw [TreeZone.runCall.eq_3, if_pos (by simp [hfl])]
        have hem := contOut_emit hInv (.enqueuedPage P) True.intro
        rcases attemptIncrement_cases (TreeZone.emit s (.enqueuedPage P)) with
          ⟨hA, _⟩ | ⟨hA, hcond⟩
        · rw [hA]
          dsimp only
          exact contOut_trans hem (contOut_enqueueFlushWaiter hem.1 P)
        · exact absurd (hfail rfl) hcond
    exact contOut_trans hd ((runCall_cont_inv P fuel).2.2.2 _ e hd.1)
  | false =>
    rw [if_neg (by simp)]
    by_cases hc : s.flusher = none ∧ s.flushWaiters ≠ []
    · rw [if_pos hc]
      rcases attemptIncrement_cases s with ⟨hA, _⟩ | ⟨hA, _⟩
      · rw [hA]
        dsimp only
        exact (runCall_cont_inv P fuel).2.2.2 _ e hInv
      · rw [hA]
        dsimp only
        cases hfw2 : s.flushWaiters with
        | nil =>
          dsimp only
          exact (runCall_cont_inv P fuel).2.2.2 _ e hInv
        | cons w rest =>
          dsimp only
          have hw : w ≠ P := by
            intro hcon
            apply hwq
            rw [hfw2, hcon]
            exact List.mem_cons_self P rest
          have hInvT : TreeZone.ContInv P
              { TreeZone.setPage { s with generation := (s.generation + 1) % 256 }
                  w (fun pg => { pg with waiting := false }) with
                flusher := some w, flushWaiters := rest } := by
            refine ⟨?_, hpw⟩
            intro hcon
            exact hw (Option.some.inj hcon)
          exact contOut_trans
            ⟨hInvT, fun a ha => Or.inl ha, fun a ha => ha⟩
            ((runCall_cont_inv P fuel).1 _ w e hInvT hw)
    · rw [if_neg hc]
      exact (runCall_cont_inv P fuel).2.2.2 _ e hInv

/-- Field effects of `release_generation` when the released bucket is
non-empty: only the dirty-page counts and the oldest generation change. -/
theorem releaseGeneration_effects (t : TreeZone.ZoneState) (gen : Nat)
    (h : t.dirtyPageCounts gen ≠ 0) :
    (TreeZone.releaseGeneration t gen).trace = t.trace ∧
    (TreeZone.releaseGeneration t gen).flusher = t.flusher ∧
    (TreeZone.releaseGeneration t gen).generation = t.generation ∧
    (TreeZone.releaseGeneration t gen).pages = t.pages ∧
    (TreeZone.releaseGeneration t gen).poolFree = t.poolFree ∧
    (TreeZone.releaseGeneration t gen).poolWaiters = t.poolWaiters ∧
    (TreeZone.releaseGeneration t gen).flushWaiters = t.flushWaiters := by
  unfold TreeZone.releaseGeneration
  rw [if_neg h]
  exact ⟨rfl, rfl, rfl, rfl, rfl, rfl, rfl⟩

/-- The oldest generation computed by `release_generation` depends only on
the dirty-page counts, the current generation, and the old oldest
generation. -/
theorem releaseGeneration_oldest_congr (t u : TreeZone.ZoneState) (gen : Nat)
    (hc : t.dirtyPageCounts = u.dirtyPageCounts) (hg : t.generation = u.generation)
    (ho : t.oldestGeneration = u.oldestGeneration) :
    (TreeZone.releaseGeneration t gen).oldestGeneration =
      (TreeZone.releaseGeneration u gen).oldestGeneration := by
  unfold TreeZone.releaseGeneration
  by_cases h : u.dirtyPageCounts gen = 0
  · rw [if_pos (by rw [hc]; exact h), if_pos h,
      (enterZoneReadOnlyMode_spec t _).2.2.2.2.1,
      (enterZoneReadOnlyMode_spec u _).2.2.2.2.1, ho]
  · rw [if_neg (by rw [hc]; exact h), if_neg h]
    dsimp only
    rw [hc, hg, ho]

/-- Field effects of the prefix of `finish_page_write` up to the flusher
check, when the released writing-generation bucket is non-empty. -/
theorem postFlusherCheckState_effects (s : TreeZone.ZoneState)
    (p : TreeZone.PageId)
    (h : s.dirtyPageCounts ((s.pages p).writingGeneration) ≠ 0) :
    (TreeZone.postFlusherCheckState s p).trace =
      s.trace ++
        [TreeZone.Action.releasedJournalLock (s.pages p).writingRecoveryLock] ∧
    (TreeZone.postFlusherCheckState s p).flusher = s.flusher ∧
    (TreeZone.postFlusherCheckState s p).generation = s.generation ∧
    (TreeZone.postFlusherCheckState s p).oldestGeneration =
      (TreeZone.releaseGeneration s ((s.pages p).writingGeneration)).oldestGeneration ∧
    (TreeZone.postFlusherCheckState s p).poolFree = s.poolFree ∧
    (TreeZone.postFlusherCheckState s p).poolWaiters = s.poolWaiters ∧
    (TreeZone.postFlusherCheckState s p).flushWaiters = s.flushWaiters ∧
    ((TreeZone.postFlusherCheckState s p).pages p).writingGeneration =
      (s.pages p).writingGeneration := by
  unfold TreeZone.postFlusherCheckState
  have hrel := releaseGeneration_effects
    (TreeZone.emit s (.releasedJournalLock (s.pages p).writingRecoveryLock))
    (((TreeZone.emit s (.releasedJournalLock (s.pages p).writingRecoveryLock)).pages p).writingGeneration)
    h
  refine ⟨?_, ?_, ?_, ?_, ?_, ?_, ?_, ?_⟩
  · rw [setPage_trace, hrel.1, emit_trace]
  · rw [setPage_flusher, hrel.2.1, emit_flusher]
  · rw [setPage_generation, hrel.2.2.1, emit_generation]
  · rw [setPage_oldestGeneration]
    exact releaseGeneration_oldest_congr _ s _ rfl rfl rfl
  · rw [setPage_poolFree, hrel.2.2.2.2.1, emit_poolFree]
  · rw [setPage_poolWaiters, hrel.2.2.2.2.2.1, emit_poolWaiters]
  · rw [setPage_flushWaiters, hrel.2.2.2.2.2.2, emit_flushWaiters]
  · rw [setPage_pages]
    rw [if_pos rfl, hrel.2.2.2.1, emit_pages]

/-- The flusher branch of `finish_page_write`: every snapshotted waiter is
notified with the context generation (and nothing else is ever notified);
when the page was re-dirtied and the generation can be incremented the same
pool entry is reused for an immediate re-write and never returned; otherwise
the flusher slot never holds `P` again and no write launch for `P` is
issued. -/
theorem flusherPhase_claim (k : Nat) (sC : TreeZone.ZoneState)
    (P : TreeZone.PageId) (e : TreeZone.EntryId) (dirty : Bool)
    (W : List TreeZone.PageId) (TR0 : List TreeZone.Action) (g o ctx : Nat)
    (hfl : sC.flusher = some P)
    (hW : sC.flushWaiters = W) (hwq : P ∉ W)
    (hpw : P ∉ sC.poolWaiters) (hpf : e ∉ sC.poolFree)
    (htr : sC.trace = TR0)
    (hben : ∀ x c, TreeZone.Action.notified x c ∉ TR0)
    (hret : TreeZone.Action.returnedToPool e ∉ TR0)
    (hla : ∀ x flag, TreeZone.Action.launchWrite P x flag ∉ TR0)
    (hg : sC.generation = g) (ho : sC.oldestGeneration = o)
    (hctx : (sC.pages P).writingGeneration = ctx) :
    (∀ w ∈ W, TreeZone.Action.notified w ctx ∈
      (TreeZone.flusherPhase (k + 1) sC P e dirty).trace) ∧
    (∀ x c, TreeZone.Action.notified x c ∈
        (TreeZone.flusherPhase (k + 1) sC P e dirty).trace →
      x ∈ W ∧ c = ctx) ∧
    (dirty = true → o ≠ (g + 1) % 256 →
      (∃ flag, TreeZone.Action.launchWrite P e flag ∈
        (TreeZone.flusherPhase (k + 1) sC P e dirty).trace) ∧
      TreeZone.Action.returnedToPool e ∉
        (TreeZone.flusherPhase (k + 1) sC P e dirty).trace) ∧
    ((dirty = false ∨ o = (g + 1) % 256) →
      (TreeZone.flusherPhase (k + 1) sC P e dirty).flusher ≠ some P ∧
      ∀ x flag, TreeZone.Action.launchWrite P x flag ∉
        (TreeZone.flusherPhase (k + 1) sC P e dirty).trace) := by
  simp only [TreeZone.flusherPhase]
  rw [hctx, hW]
  have hInvE : TreeZone.NotifyInv P e g o { sC with flushWaiters := [] } :=
    ⟨hfl, hg, ho, hpf, hpw, List.not_mem_nil P⟩
  obtain ⟨hD1, hD2, hD3, hD4⟩ :=
    notifyWaiters_spec P e g o ctx (k + 1) W { sC with flushWaiters := [] }
      hInvE hwq
  have hDmem : ∀ a ∈ (TreeZone.notifyFlushWaiters (k + 1)
      { sC with flushWaiters := [] } ctx W).trace,
      a ∈ TR0 ∨ (∃ w ∈ W, a = TreeZone.Action.notified w ctx) ∨
        TreeZone.notifyBenign P e a := by
    intro a ha
    rcases hD2 a ha with h | h
    · left
      rw [← htr]
      exact h
    · right
      exact h
  have hDnot : ∀ x c, TreeZone.Action.notified x c ∈
      (TreeZone.notifyFlushWaiters (k + 1)
        { sC with flushWaiters := [] } ctx W).trace → x ∈ W ∧ c = ctx := by
    intro x c hx
    rcases hDmem _ hx with h | h | h
    · exact absurd h (hben x c)
    · obtain ⟨w, hw, heq⟩ := h
      obtain ⟨rfl, rfl⟩ : x = w ∧ c = ctx := by
        injection heq with h1 h2
        exact ⟨h1, h2⟩
      exact ⟨hw, rfl⟩
    · exact h.elim
  have hDla : ∀ x flag, TreeZone.Action.launchWrite P x flag ∉
      (TreeZone.notifyFlushWaiters (k + 1)
        { sC with flushWaiters := [] } ctx W).trace := by
    intro x flag hx
    rcases hDmem _ hx with h | h | h
    · exact hla x flag h
    · obtain ⟨w, hw, heq⟩ := h
      cases heq
    · exact h rfl
  have hDret : TreeZone.Action.returnedToPool e ∉
      (TreeZone.notifyFlushWaiters (k + 1)
        { sC with flushWaiters := [] } ctx W).trace := by
    intro hx
    rcases hDmem _ hx with h | h | h
    · exact hret h
    · obtain ⟨w, hw, heq⟩ := h
      cases heq
    · exact h rfl
  cases dirty with
  | false =>
    rw [if_neg (by simp)]
    have hcont := finishContinuation_spec P (k + 1)
      { TreeZone.notifyFlushWaiters (k + 1)
          { sC with flushWaiters := [] } ctx W with flusher := none } e false
      rfl hD1.2.2.2.2.1 hD1.2.2.2.2.2 (fun hcon => nomatch hcon)
    refine ⟨?_, ?_, ?_, ?_⟩
    · intro w hw
      exact hcont.2.2 _ (hD4 w hw)
    · intro x c hx
      rcases hcont.2.1 _ hx with h | h
      · exact hDnot x c h
      · exact h.elim
    · intro hcon
      exact nomatch hcon
    · intro _
      refine ⟨hcont.1.1, ?_⟩
      intro x flag hx
      rcases hcont.2.1 _ hx with h | h
      · exact hDla x flag h
      · exact h rfl
  | true =>
    rw [if_pos rfl]
    rcases attemptIncrement_cases (TreeZone.notifyFlushWaiters (k + 1)
        { sC with flushWaiters := [] } ctx W) with ⟨hA, hcond⟩ | ⟨hA, hcond⟩
    · -- attempt_increment fails: all generations in flight
      rw [hA]
      dsimp only
      have hoi : o = (g + 1) % 256 := by
        rw [← hD1.2.2.1, ← hD1.2.1]
        exact hcond
      have hcont := finishContinuation_spec P (k + 1)
        { TreeZone.notifyFlushWaiters (k + 1)
            { sC with flushWaiters := [] } ctx W with flusher := none } e true
        rfl hD1.2.2.2.2.1 hD1.2.2.2.2.2
        (fun _ => by
          show (TreeZone.notifyFlushWaiters (k + 1)
            { sC with flushWaiters := [] } ctx W).oldestGeneration =
            ((TreeZone.notifyFlushWaiters (k + 1)
              { sC with flushWaiters := [] } ctx W).generation + 1) % 256
          rw [hD1.2.2.1, hD1.2.1]
          exact hoi)
      refine ⟨?_, ?_, ?_, ?_⟩
      · intro w hw
        exact hcont.2.2 _ (hD4 w hw)
      · intro x c hx
        rcases hcont.2.1 _ hx with h | h
        · exact hDnot x c h
        · exact h.elim
      · intro _ hi
        exact absurd hoi hi
      · intro _
        refine ⟨hcont.1.1, ?_⟩
        intro x flag hx
        rcases hcont.2.1 _ hx with h | h
        · exact hDla x flag h
        · exact h rfl
    · -- attempt_increment succeeds: immediate re-write with the same entry
      rw [hA]
      dsimp only
      have hnoi : o ≠ (g + 1) % 256 := by
        rw [← hD1.2.2.1, ← hD1.2.1]
        exact hcond
      have hfl1 : ({ TreeZone.notifyFlushWaiters (k + 1)
          { sC with flushWaiters := [] } ctx W with
            generation := ((TreeZone.notifyFlushWaiters (k + 1)
              { sC with flushWaiters := [] } ctx W).generation + 1) % 256 } :
            TreeZone.ZoneState).flusher = some P := hD1.1
      obtain ⟨flag, htw, hpg, hcw, hfw, hgw, how, hpfw, hpww, hfww⟩ :=
        writePage_flusher_launch k
          { TreeZone.notifyFlushWaiters (k + 1)
              { sC with flushWaiters := [] } ctx W with
            generation := ((TreeZone.notifyFlushWaiters (k + 1)
              { sC with flushWaiters := [] } ctx W).generation + 1) % 256 }
          P e hfl1
      simp only [TreeZone.writePage]
      refine ⟨?_, ?_, ?_, ?_⟩
      · intro w hw
        rw [htw]
        exact List.mem_append_left _ (hD4 w hw)
      · intro x c hx
        rw [htw] at hx
        rcases List.mem_append.mp hx with h | h
        · exact hDnot x c h
        · cases List.mem_singleton.mp h
      · intro _ _
        constructor
        · exact ⟨flag, by
            rw [htw]
            exact List.mem_append_right _ (List.mem_singleton.mpr rfl)⟩
        · intro hcon
          rw [htw] at hcon
          rcases List.mem_append.mp hcon with h | h
          · exact hDret h
          · cases List.mem_singleton.mp h
      · intro hor
        rcases hor with hcon | hcon
        · exact nomatch hcon
        · exact absurd hcon hnoi

/-- C1: in `finish_page_write`, when the completed page `P` is the current
flusher, the zone notifies every member of `flush_waiters` via
`write_page_if_not_dirtied` with context generation equal to `P`'s writing
generation (and nothing else is ever notified, with any other context);
then, if `P` was re-dirtied during the write (`writing_generation ≠
generation`) and `attempt_increment` succeeds (the post-release oldest
generation differs from `generation + 1` mod 256), `P` is immediately
re-written using the same vio pool entry `e`, which is not returned to the
pool; otherwise the flusher is cleared — it never again holds `P` within
the call — and no write is launched for `P`. -/
theorem claim_C1_finish_page_write (fuel : Nat) (s : TreeZone.ZoneState)
    (P : TreeZone.PageId) (e : TreeZone.EntryId)
    (hfuel : 1 ≤ fuel) (htrace : s.trace = [])
    (hfl : s.flusher = some P) (hwq : P ∉ s.flushWaiters)
    (hpw : P ∉ s.poolWaiters) (hpf : e ∉ s.poolFree)
    (hcnt : s.dirtyPageCounts ((s.pages P).writingGeneration) ≠ 0) :
    ∀ wg, wg = (s.pages P).writingGeneration →
    ∀ o1, o1 = (TreeZone.releaseGeneration s wg).oldestGeneration →
      (∀ w ∈ s.flushWaiters, TreeZone.Action.notified w wg ∈
        (TreeZone.finishPageWrite fuel s P e).trace) ∧
      (∀ x c, TreeZone.Action.notified x c ∈
          (TreeZone.finishPageWrite fuel s P e).trace →
        x ∈ s.flushWaiters ∧ c = wg) ∧
      (wg ≠ (s.pages P).generation → o1 ≠ (s.generation + 1) % 256 →
        (∃ flag, TreeZone.Action.launchWrite P e flag ∈
          (TreeZone.finishPageWrite fuel s P e).trace) ∧
        TreeZone.Action.returnedToPool e ∉
          (TreeZone.finishPageWrite fuel s P e).trace) ∧
      ((wg = (s.pages P).generation ∨ o1 = (s.generation + 1) % 256) →
        (TreeZone.finishPageWrite fuel s P e).flusher ≠ some P ∧
        ∀ x flag, TreeZone.Action.launchWrite P x flag ∉
          (TreeZone.finishPageWrite fuel s P e).trace) := by
  obtain ⟨k, rfl⟩ : ∃ k, fuel = k + 1 := ⟨fuel - 1, by omega⟩
  intro wg hwg o1 ho1
  subst hwg
  subst ho1
  have hpost := postFlusherCheckState_effects s P hcnt
  simp only [TreeZone.finishPageWrite]
  have hCfl : (TreeZone.postFlusherCheckState s P).flusher = some P := by
    rw [hpost.2.1]
    exact hfl
  rw [if_pos hCfl]
  obtain ⟨H1, H2, H3, H4⟩ := flusherPhase_claim k
    (TreeZone.postFlusherCheckState s P) P e
    (decide ((s.pages P).writingGeneration ≠ (s.pages P).generation))
    s.flushWaiters
    [TreeZone.Action.releasedJournalLock (s.pages P).writingRecoveryLock]
    s.generation
    ((TreeZone.releaseGeneration s ((s.pages P).writingGeneration)).oldestGeneration)
    ((s.pages P).writingGeneration)
    hCfl hpost.2.2.2.2.2.2.1 hwq
    (by rw [hpost.2.2.2.2.2.1]; exact hpw)
    (by rw [hpost.2.2.2.2.1]; exact hpf)
    (by rw [hpost.1, htrace]; rfl)
    (by intro x c hcon; cases List.mem_singleton.mp hcon)
    (by intro hcon; cases List.mem_singleton.mp hcon)
    (by intro x flag hcon; cases List.mem_singleton.mp hcon)
    hpost.2.2.1 hpost.2.2.2.1 hpost.2.2.2.2.2.2.2
  refine ⟨H1, H2, ?_, ?_⟩
  · intro hd hi
    exact H3 (decide_eq_true hd) hi
  · intro hor
    refine H4 ?_
    rcases hor with hd | hi
    · exact Or.inl (decide_eq_false (not_not_intro hd))
    · exact Or.inr hi

/-- Witness for C1: in the concrete `rewriteZone` (page 0 is the flusher,
written at generation 0 and re-dirtied at generation 1, page 1 queued on
`flush_waiters`), finishing the write of page 0 with pool entry 9
immediately re-launches a write for page 0 with the same entry, which is
never returned to the pool. -/
theorem claim_C1_witness :
    (1 : Nat) ≤ 5 ∧ TreeZone.rewriteZone.trace = [] ∧
    TreeZone.rewriteZone.flusher = some 0 ∧
    (0 : TreeZone.PageId) ∉ TreeZone.rewriteZone.flushWaiters ∧
    (0 : TreeZone.PageId) ∉ TreeZone.rewriteZone.poolWaiters ∧
    (9 : TreeZone.EntryId) ∉ TreeZone.rewriteZone.poolFree ∧
    TreeZone.rewriteZone.dirtyPageCounts
      ((TreeZone.rewriteZone.pages 0).writingGeneration) ≠ 0 ∧
    ((∃ flag, TreeZone.Action.launchWrite 0 9 flag ∈
        (TreeZone.finishPageWrite 5 TreeZone.rewriteZone 0 9).trace) ∧
      TreeZone.Action.returnedToPool 9 ∉
        (TreeZone.finishPageWrite 5 TreeZone.rewriteZone 0 9).trace) :=
  ⟨by omega, rfl, rfl, by decide, by decide, by decide, by decide,
    (claim_C1_finish_page_write 5 TreeZone.rewriteZone 0 9 (by omega) rfl rfl
        (by decide) (by decide) (by decide) (by decide) 0 rfl 1
        (by decide)).2.2.1 (by decide) (by decide)⟩

/-- Witness for the amended C3 at a fresh zone expiring two idle pages. -/
theorem claim_C3_witness :
    ([0, 1] : List TreeZone.PageId).Nodup ∧
    (∀ p ∈ ([0, 1] : List TreeZone.PageId),
      (TreeZone.freshZone.pages p).waiting = false) ∧
    ((∀ p ∈ ([0, 1] : List TreeZone.PageId),
      (∃ z, TreeZone.Action.stamped p TreeZone.freshZone.generation z ∈
        (TreeZone.writeDirtyPagesCallback 5 TreeZone.freshZone [0, 1]).trace) ∧
      ((TreeZone.freshZone.pages p).writing = false →
        TreeZone.Action.enqueuedPage p ∈
          (TreeZone.writeDirtyPagesCallback 5 TreeZone.freshZone [0, 1]).trace) ∧
      ((TreeZone.freshZone.pages p).writing = true →
        TreeZone.Action.enqueuedPage p ∉
          (TreeZone.writeDirtyPagesCallback 5 TreeZone.freshZone [0, 1]).trace)) ∧
    ∀ p g z,
      TreeZone.Action.stamped p g z ∈
        (TreeZone.writeDirtyPagesCallback 5 TreeZone.freshZone [0, 1]).trace →
      g = TreeZone.freshZone.generation) :=
  ⟨by decide, by decide,
    claim_C3_snapshot_generation 5 TreeZone.freshZone [0, 1] (by omega) rfl
      (by decide) (by decide) (by decide)⟩
